import Mathlib

/-!
# VC1 PES writer: `libeplayer3/output/writer/vc1.cpp`

A shallow embedding of the VC1 writer (`reset`, `writeData`) and theorems about
the packets it hands to the sink.

Conventions of the embedding

* bytes are natural numbers below 256, buffers are `List Nat`;
* C `int` values are `Int`, without the wrap at `2^31`: a result about a sum of
  write counts holds for the code when the sum is a value of `int`, and says
  so;
* the two file-scope variables `initialHeader` and `FrameHeaderSeen` form the
  record `WriterState`, passed in and out of every operation;
* `writev` is the sink: a deterministic machine with its own state, that
  answers every write with a count (negative for an error);
* everything `writeData` hands to `writev` is logged as a `WriteRec`, labelled
  with the call site (`metadata`: line 190, `extradata`: line 200, `chunk`:
  line 254) and with the count the sink answered;
* the `while` loop runs on fuel: `none` says the fuel ran out before the loop
  ended, and the theorems show that `packet->size` iterations are enough.
-/

namespace Vc1

/-! ## Constants and collaborators declared outside the file -/

/-- Constants and functions that `vc1.cpp` takes from headers outside the file
(`pes.h`, `misc.h`, libavutil): they are parameters of the development.
`InsertPesHeader size stream_id pts pic_start_code` gives the header bytes it
stores in its buffer (its C return value is their number);
`crazyFramerate num den` is the value of the floating-point expression
`10000000.0 / av_q2d(r_frame_rate)` converted to `unsigned int`. -/
structure Env where
  MAX_PES_PACKET_SIZE : Int
  INVALID_PTS_VALUE : Int
  VC1_VIDEO_PES_START_CODE : Nat
  InsertPesHeader : Int → Nat → Int → Int → List Nat
  crazyFramerate : Int → Int → Nat

/-! ## Constants of the file -/

def WMV3_PRIVATE_DATA_LENGTH : Nat := 4

def METADATA_STRUCT_A_START : Nat := 12

def METADATA_STRUCT_B_START : Nat := 24

def METADATA_STRUCT_B_FRAMERATE_START : Nat := 32

def METADATA_STRUCT_C_START : Nat := 8

def VC1_SEQUENCE_LAYER_METADATA_START_CODE : Nat := 0x80

def VC1_FRAME_START_CODE : Nat := 0x0d

def SequenceLayerStartCode : List Nat :=
  [0x00, 0x00, 0x01, VC1_SEQUENCE_LAYER_METADATA_START_CODE]

def Metadata : List Nat :=
  [0x00, 0x00, 0x00, 0xc5,
   0x04, 0x00, 0x00, 0x00,
   0xc0, 0x00, 0x00, 0x00,
   0x00, 0x00, 0x00, 0x00,
   0x00, 0x00, 0x00, 0x00,
   0x0c, 0x00, 0x00, 0x00,
   0x60, 0x00, 0x00, 0x00,
   0x00, 0x00, 0x00, 0x00,
   0x00, 0x00, 0x00, 0x00]

/-- The local array `Vc1FrameStartCode` of `writeData` (line 227). -/
def Vc1FrameStartCode : List Nat := [0, 0, 1, VC1_FRAME_START_CODE]

/-! ## Data model -/

/-- The file-scope variables `initialHeader` (an `int`) and `FrameHeaderSeen`
(an `unsigned char`), lines 107-108. -/
structure WriterState where
  initialHeader : Int
  FrameHeaderSeen : Nat
deriving DecidableEq

/-- The static initialisers of lines 107-108: the state of a fresh writer. -/
def initialState : WriterState := ⟨1, 0⟩

/-- The fields of `call->packet` that the writer reads: `data` (`none` is the
null pointer) and `size`. -/
structure AVPacket where
  data : Option (List Nat)
  size : Int
deriving DecidableEq

/-- The fields of `call->stream->codec` that the writer reads. -/
structure AVCodecContext where
  width : Int
  height : Int
  extradata : List Nat
  extradata_size : Int
deriving DecidableEq

structure AVRational where
  num : Int
  den : Int
deriving DecidableEq

structure AVStream where
  codec : AVCodecContext
  r_frame_rate : AVRational
deriving DecidableEq

/-- The fields of `WriterAVCallData_t` that the writer reads or writes. -/
structure WriterAVCallData where
  fd : Int
  Pts : Int
  packet : AVPacket
  stream : AVStream
deriving DecidableEq

/-- The bytes of the access unit: those behind `packet->data`, none for the
null pointer. -/
def AVPacket.bytes (p : AVPacket) : List Nat := p.data.getD []

/-- The call site of a `writev`: line 190, line 200 or line 254. -/
inductive WriteSite where
  | metadata
  | extradata
  | chunk
deriving DecidableEq

/-- One `writev(fd, iov, 2)`: its call site, the bytes of `iov[0]` and of
`iov[1]`, and the count the sink answered. -/
structure WriteRec where
  site : WriteSite
  iov0 : List Nat
  iov1 : List Nat
  res : Int
deriving DecidableEq

/-- The sink behind `writev`: from its state, the handle and the two buffers
to the answered count and its next state. -/
structure Sink (σ : Type) where
  writev : σ → Int → List Nat → List Nat → Int × σ

/-! ## `reset` -/

/-- Lines 117-122: the returned status and the new state. -/
def reset (_st : WriterState) : Int × WriterState :=
  (0, { initialHeader := 1, FrameHeaderSeen := 0 })

/-! ## The metadata packet, lines 154-185 -/

/-- The call `memcpy(buf + off, src, sizeof src)`. -/
def memcpy (buf : List Nat) (off : Nat) (src : List Nat) : List Nat :=
  buf.take off ++ src ++ buf.drop (off + src.length)

/-- The byte `(v >> shift) & 0xff` of an `int` (also the `unsigned char` that
`v >> 24` is stored as): `>>` on a negative `int` is the arithmetic shift. -/
def byteOf (v : Int) (shift : Nat) : Nat := ((v / 2 ^ shift) % 256).toNat

/-- The bytes `PesPayload[0 .. PesPtr - PesPayload)` after lines 154-181. -/
def PesPayload (height width : Int) (crazyFramerate : Nat) : List Nat :=
  let buf0 := List.replicate 128 0
  let ptr0 := 0
  let buf1 := memcpy buf0 ptr0 SequenceLayerStartCode
  let ptr1 := ptr0 + SequenceLayerStartCode.length
  let buf2 := memcpy buf1 ptr1 Metadata
  let ptr2 := ptr1 + METADATA_STRUCT_C_START + WMV3_PRIVATE_DATA_LENGTH
  let buf3 := memcpy buf2 ptr2
    [byteOf height 0, byteOf height 8, byteOf height 16, byteOf height 24,
     byteOf width 0, byteOf width 8, byteOf width 16, byteOf width 24]
  let ptr3 := ptr2 + 8
  let ptr4 := ptr3 + 12
  let buf4 := memcpy buf3 ptr4
    [byteOf crazyFramerate 0, byteOf crazyFramerate 8,
     byteOf crazyFramerate 16, byteOf crazyFramerate 24]
  let ptr5 := ptr4 + 4
  buf4.take ptr5

/-- Result of the block `if (initialHeader) { ... }`, lines 138-203. -/
structure HeaderOut (σ : Type) where
  len : Int
  initialHeader : Int
  dev : σ
  writes : List WriteRec

/-- Lines 138-203: when `initialHeader` is set, the metadata packet and the
extradata packet are written, `len` takes the count of each write in turn, and
`initialHeader` is cleared. -/
def emitInitialHeader {σ : Type} (env : Env) (sink : Sink σ)
    (st : WriterState) (dev : σ) (call : WriterAVCallData) : HeaderOut σ :=
  if st.initialHeader ≠ 0 then
    let crazyFramerate :=
      env.crazyFramerate call.stream.r_frame_rate.num call.stream.r_frame_rate.den
    let payload := PesPayload call.stream.codec.height call.stream.codec.width crazyFramerate
    let hdr1 := env.InsertPesHeader payload.length env.VC1_VIDEO_PES_START_CODE
      env.INVALID_PTS_VALUE 0
    let r1 := sink.writev dev call.fd hdr1 payload
    let extra := call.stream.codec.extradata.take call.stream.codec.extradata_size.toNat
    let hdr2 := env.InsertPesHeader call.stream.codec.extradata_size
      env.VC1_VIDEO_PES_START_CODE env.INVALID_PTS_VALUE 0
    let r2 := sink.writev r1.2 call.fd hdr2 extra
    { len := r2.1, initialHeader := 0, dev := r2.2,
      writes := [⟨WriteSite.metadata, hdr1, payload, r1.1⟩,
                 ⟨WriteSite.extradata, hdr2, extra, r2.1⟩] }
  else
    { len := 0, initialHeader := st.initialHeader, dev := dev, writes := [] }

/-! ## The chunk loop, lines 205-264 -/

/-- The variables the `while` loop reads and writes. `len` is kept in `Int`:
it is the source's `int len` as long as every value stored in it is a value of
`int`; what is proved about an accumulated `len` states that range as a
condition (`FitsInt`). -/
structure LoopState (σ : Type) where
  len : Int
  Position : Int
  insertSampleHeader : Nat
  FrameHeaderSeen : Nat
  Pts : Int
  dev : σ

/-- Lines 211-214. -/
def packetLength (env : Env) (size Position : Int) : Int :=
  if size - Position ≤ env.MAX_PES_PACKET_SIZE then size - Position
  else env.MAX_PES_PACKET_SIZE

/-- The value of `FrameHeaderSeen` after lines 226-239. -/
def frameHeaderCheck (insertSampleHeader FrameHeaderSeen : Nat)
    (data : List Nat) (size : Int) : Nat :=
  if insertSampleHeader ≠ 0 ∧ FrameHeaderSeen = 0 ∧ size > 3
      ∧ data.take 4 = Vc1FrameStartCode then 1
  else FrameHeaderSeen

/-- The bytes of `iov[0]` of one turn, lines 221-250: the header built by
`InsertPesHeader` for `PacketLength` and `call->Pts`, and after it the frame
start code when this is the first turn and `FrameHeaderSeen` is still 0. -/
def chunkHeader {σ : Type} (env : Env) (data : List Nat) (size : Int)
    (s : LoopState σ) : List Nat :=
  let PacketLength := packetLength env size s.Position
  let hdr := env.InsertPesHeader PacketLength env.VC1_VIDEO_PES_START_CODE s.Pts 0
  let seen := frameHeaderCheck s.insertSampleHeader s.FrameHeaderSeen data size
  if s.insertSampleHeader ≠ 0 ∧ seen = 0 then hdr ++ Vc1FrameStartCode else hdr

/-- The bytes of `iov[1]` of one turn, lines 251-252: `PacketLength` bytes
from `call->packet->data + Position`. -/
def chunkPayload (env : Env) (data : List Nat) (size Position : Int) : List Nat :=
  (data.drop Position.toNat).take (packetLength env size Position).toNat

/-- One turn of the loop body, lines 211-262: the write, whether the loop is
left by `break`, and the variables after the turn. -/
def chunkStep {σ : Type} (env : Env) (sink : Sink σ) (fd : Int)
    (data : List Nat) (size : Int) (s : LoopState σ) :
    WriteRec × Bool × LoopState σ :=
  let PacketLength := packetLength env size s.Position
  let seen := frameHeaderCheck s.insertSampleHeader s.FrameHeaderSeen data size
  let PesHeader := chunkHeader env data size s
  let payload := chunkPayload env data size s.Position
  let r := sink.writev s.dev fd PesHeader payload
  let w : WriteRec := ⟨WriteSite.chunk, PesHeader, payload, r.1⟩
  if r.1 < 0 then
    (w, true,
      { len := r.1, Position := s.Position, insertSampleHeader := 0,
        FrameHeaderSeen := seen, Pts := s.Pts, dev := r.2 })
  else
    (w, false,
      { len := s.len + r.1, Position := s.Position + PacketLength,
        insertSampleHeader := 0, FrameHeaderSeen := seen,
        Pts := env.INVALID_PTS_VALUE, dev := r.2 })

/-- The loop `while (Position < call->packet->size)`, lines 209-263, on fuel:
the variables when the loop is left and the writes it made. -/
def chunkLoop {σ : Type} (env : Env) (sink : Sink σ) (fd : Int)
    (data : List Nat) (size : Int) :
    Nat → LoopState σ → Option (LoopState σ × List WriteRec)
  | 0, s => if s.Position < size then none else some (s, [])
  | fuel + 1, s =>
    if s.Position < size then
      let t := chunkStep env sink fd data size s
      if t.2.1 then some (t.2.2, [t.1])
      else
        match chunkLoop env sink fd data size fuel t.2.2 with
        | none => none
        | some (s2, ws) => some (s2, t.1 :: ws)
    else some (s, [])

/-! ## `writeData` -/

/-- What a call of `writeData` leaves behind: the returned `len`, the two
file-scope variables, `call->Pts`, the sink, and the writes in the order they
were made. -/
structure Outcome (σ : Type) where
  ret : Int
  state : WriterState
  Pts : Int
  dev : σ
  writes : List WriteRec

/-- Lines 124-268. -/
def writeData {σ : Type} (env : Env) (sink : Sink σ) (fuel : Nat)
    (st : WriterState) (dev : σ) (call : WriterAVCallData) : Option (Outcome σ) :=
  if call.fd < 0 then
    some { ret := 0, state := st, Pts := call.Pts, dev := dev, writes := [] }
  else
    let h := emitInitialHeader env sink st dev call
    match call.packet.data with
    | none =>
      some { ret := h.len,
             state := { initialHeader := h.initialHeader,
                        FrameHeaderSeen := st.FrameHeaderSeen },
             Pts := call.Pts, dev := h.dev, writes := h.writes }
    | some data =>
      if call.packet.size > 0 then
        match chunkLoop env sink call.fd data call.packet.size fuel
            { len := h.len, Position := 0, insertSampleHeader := 1,
              FrameHeaderSeen := st.FrameHeaderSeen, Pts := call.Pts, dev := h.dev } with
        | none => none
        | some (s, ws) =>
          some { ret := s.len,
                 state := { initialHeader := h.initialHeader,
                            FrameHeaderSeen := s.FrameHeaderSeen },
                 Pts := s.Pts, dev := s.dev, writes := h.writes ++ ws }
      else
        some { ret := h.len,
               state := { initialHeader := h.initialHeader,
                          FrameHeaderSeen := st.FrameHeaderSeen },
               Pts := call.Pts, dev := h.dev, writes := h.writes }

/-- The host's feed loop over one epoch (spec 2: the host calls `writeData`
once per access unit): the calls are made in order, each on the state and the
sink the one before left, and the outcome of every call is kept. -/
def feed {σ : Type} (env : Env) (sink : Sink σ) (fuel : Nat) :
    WriterState → σ → List WriterAVCallData → Option (List (Outcome σ))
  | _, _, [] => some []
  | st, dev, c :: cs =>
    match writeData env sink fuel st dev c with
    | none => none
    | some r =>
      match feed env sink fuel r.state r.dev cs with
      | none => none
      | some rs => some (r :: rs)

/-! ## Concrete collaborators for the worked examples -/

/-- A small header encoder for the examples: start-code bytes, the
stream id, the 16-bit packet length and one byte that tells whether a
timestamp is carried. -/
def demoInsertPesHeader (invalidPts : Int) (size : Int) (streamId : Nat) (pts : Int)
    (_picStartCode : Int) : List Nat :=
  [0, 0, 1, streamId, (size.toNat / 256) % 256, size.toNat % 256,
   if pts = invalidPts then 0 else 0x80]

/-- Environment of the examples: packets of at most 4 payload bytes. -/
def demoEnv : Env where
  MAX_PES_PACKET_SIZE := 4
  INVALID_PTS_VALUE := 0x200000000
  VC1_VIDEO_PES_START_CODE := 0xfd
  InsertPesHeader := demoInsertPesHeader 0x200000000
  crazyFramerate := fun num den => (10000000 * den / num).toNat

/-- A sink that takes every byte: it answers the number of bytes offered. -/
def fullSink : Sink Unit where
  writev := fun _ _ b0 b1 => ((b0.length + b1.length : Nat), ())

/-- Stream parameters of the examples: 1920x1080 at 24000/1001 frames a
second, three bytes of extradata. -/
def demoStream : AVStream :=
  { codec := { width := 1920, height := 1080, extradata := [9, 9, 9], extradata_size := 3 },
    r_frame_rate := { num := 24000, den := 1001 } }

/-- A call of the examples: handle 3, the given timestamp and access unit. -/
def demoCall (pts : Int) (bs : List Nat) : WriterAVCallData :=
  { fd := 3, Pts := pts, packet := { data := some bs, size := bs.length }, stream := demoStream }

/-- A call of the examples on no handle (`fd = -1`). -/
def demoClosed : WriterAVCallData :=
  { fd := -1, Pts := 5, packet := { data := some [1, 2], size := 2 }, stream := demoStream }

/-- A sink that counts its writes and fails the write number `k` (from 0) with
status -1; every other write takes all bytes. -/
def failingSink (k : Nat) : Sink Nat where
  writev := fun n _ b0 b1 =>
    (if n = k then -1 else ((b0.length + b1.length : Nat) : Int), n + 1)

/-- A sink that takes one byte of every write: it answers 1 whatever is
offered. -/
def shortSink : Sink Unit where
  writev := fun _ _ _ _ => (1, ())

/-- Environment of the scenario of spec 8: as `demoEnv`, with packets of at
most 2048 payload bytes. -/
def demoEnv2048 : Env where
  MAX_PES_PACKET_SIZE := 2048
  INVALID_PTS_VALUE := 0x200000000
  VC1_VIDEO_PES_START_CODE := 0xfd
  InsertPesHeader := demoInsertPesHeader 0x200000000
  crazyFramerate := fun num den => (10000000 * den / num).toNat

/-- An access unit of 5000 bytes that does not begin with the frame start
code. -/
def demoUnit5000 : List Nat := List.replicate 5000 7

/-! ## Vocabulary of the theorems -/

/-- The writes of a call made by the chunk loop (call site line 254), in the
order they were made. -/
def chunkWrites {σ : Type} (r : Outcome σ) : List WriteRec :=
  r.writes.filter (fun w => decide (w.site = WriteSite.chunk))

/-- A packet whose `size` is the number of bytes behind `data`. -/
def AVPacket.WellFormed (p : AVPacket) : Prop := p.size = (p.bytes.length : Int)

instance (p : AVPacket) : Decidable p.WellFormed :=
  inferInstanceAs (Decidable (p.size = (p.bytes.length : Int)))

/-- The loop variables on entry, lines 126, 206-207 (`len` is what the header
block left). -/
def loopInit {σ : Type} (len : Int) (st : WriterState) (dev : σ) (call : WriterAVCallData) :
    LoopState σ :=
  { len := len, Position := 0, insertSampleHeader := 1,
    FrameHeaderSeen := st.FrameHeaderSeen, Pts := call.Pts, dev := dev }

/-- No frame start code in the header buffers of the chunk writes `ws` of a
call with timestamp `pts`: the first is exactly the header `InsertPesHeader`
returns for the chunk and `pts`, every later one exactly the header it returns
for the chunk and `INVALID_PTS_VALUE`. -/
def PlainHeaders (env : Env) (pts : Int) (ws : List WriteRec) : Prop :=
  (∀ w, ws.head? = some w →
    w.iov0 = env.InsertPesHeader w.iov1.length env.VC1_VIDEO_PES_START_CODE pts 0) ∧
  (∀ w ∈ ws.tail,
    w.iov0 = env.InsertPesHeader w.iov1.length env.VC1_VIDEO_PES_START_CODE
      env.INVALID_PTS_VALUE 0)

/-- The four bytes lines 167-170 (and 171-174, 178-181) store for a value:
`v`, `v >> 8`, `v >> 16` and `v >> 24`, each cut to 8 bits. -/
def le32 (v : Int) : List Nat := [byteOf v 0, byteOf v 8, byteOf v 16, byteOf v 24]

/-- The values of the C type `int` (32 bits, two's complement). -/
def FitsInt (x : Int) : Prop := -2147483648 ≤ x ∧ x ≤ 2147483647

/-- The caller's record after a call: of the fields of `*call`, `writeData`
assigns to `Pts` only (line 262); `fd`, `packet` (pointer, bytes behind it and
`size`) and `stream` are only read. -/
def callAfter {σ : Type} (call : WriterAVCallData) (r : Outcome σ) : WriterAVCallData :=
  { fd := call.fd, Pts := r.Pts, packet := call.packet, stream := call.stream }

/-! ## Line 150 in IEEE 754 double arithmetic

`crazyFramerate = 10000000.0 / av_q2d(r_frame_rate)` is computed in `double`:
`av_q2d` (libavutil, `a.num / (double) a.den`) divides two integers that are
exact as doubles, `10000000.0` is exact too, and each of the two divisions
gives the double nearest to the exact quotient (round to nearest, ties to
even). A positive double is kept as an exact fraction of natural numbers, a
53-bit mantissa times a power of two over a power of two. Frame rates are
positive and far from the overflow and subnormal ranges, which are not
modelled. -/

/-- The number `k` with `2 ^ k ≤ n < 2 ^ (k + 1)`, by halving `n` (0 for
`n = 0`). -/
def log2Fuel : Nat → Nat → Nat
  | 0, _ => 0
  | fuel + 1, n => if n < 2 then 0 else log2Fuel fuel (n / 2) + 1

/-- The binary logarithm of `n`, rounded down. -/
def ilog2 (n : Nat) : Nat := log2Fuel n n

/-- The integer nearest to `n / d`, the even one of the two when `n / d` lies
half way between two integers. -/
def roundHalfEven (n d : Nat) : Nat :=
  if 2 * (n % d) < d then n / d
  else if d < 2 * (n % d) then n / d + 1
  else if (n / d) % 2 = 0 then n / d
  else n / d + 1

/-- The double nearest to `p / q` for positive `p` and `q`, as numerator and
denominator of an exact fraction: `p / q` is scaled by a power of two into
`[2 ^ 52, 2 ^ 53)`, rounded to an integer mantissa `m`, and scaled back. -/
def doubleDiv (p q : Nat) : Nat × Nat :=
  let n0 := p * 2 ^ (53 + ilog2 q)
  let d0 := q * 2 ^ ilog2 p
  let s := if d0 * 2 ^ 53 ≤ n0 then 2 else 1
  (roundHalfEven n0 (s * d0) * s * 2 ^ ilog2 p, 2 ^ (53 + ilog2 q))

/-- Modelled from the spec: `av_q2d` is declared in libavutil, outside the
source file. It gives the frame rate of spec 3 and 4.1 as a number, in
libavutil `a.num / (double) a.den`: for a positive rational the double nearest
to `num / den`. -/
def av_q2d (a : AVRational) : Nat × Nat := doubleDiv a.num.toNat a.den.toNat

/-- Line 150: the double `10000000.0 / av_q2d(r_frame_rate)` converted to
`unsigned int`, which drops the fraction. -/
def crazyFramerate (r_frame_rate : AVRational) : Nat :=
  let q := av_q2d r_frame_rate
  let t := doubleDiv (10000000 * q.2) q.1
  t.1 / t.2

/-- Environment of the examples in which the frame interval is the value
line 150 computes in double arithmetic. -/
def ieeeEnv : Env where
  MAX_PES_PACKET_SIZE := 4
  INVALID_PTS_VALUE := 0x200000000
  VC1_VIDEO_PES_START_CODE := 0xfd
  InsertPesHeader := demoInsertPesHeader 0x200000000
  crazyFramerate := fun num den => crazyFramerate { num := num, den := den }

/-- A call of the examples for a stream with the frame rate `num / den`. -/
def demoCallRate (num den : Int) : WriterAVCallData :=
  { fd := 3, Pts := 77, packet := { data := some [1, 2, 3, 4, 5], size := 5 },
    stream := { codec := demoStream.codec, r_frame_rate := { num := num, den := den } } }

/-! ## The loop, turn by turn -/

section Loop
variable {σ : Type} (env : Env) (sink : Sink σ) (fd : Int) (data : List Nat) (size : Int)

theorem packetLength_bounds {Position : Int} (hMAX : 0 < env.MAX_PES_PACKET_SIZE)
    (h : Position < size) :
    0 < packetLength env size Position ∧
      packetLength env size Position ≤ env.MAX_PES_PACKET_SIZE ∧
      packetLength env size Position ≤ size - Position := by
  unfold packetLength; split <;> omega

theorem chunkStep_write (s : LoopState σ) :
    (chunkStep env sink fd data size s).1 =
      ⟨WriteSite.chunk, chunkHeader env data size s, chunkPayload env data size s.Position,
        (sink.writev s.dev fd (chunkHeader env data size s)
          (chunkPayload env data size s.Position)).1⟩ := by
  unfold chunkStep; dsimp only; split <;> rfl

theorem chunkStep_break (s : LoopState σ) :
    (chunkStep env sink fd data size s).2.1 = true ↔
      (sink.writev s.dev fd (chunkHeader env data size s)
          (chunkPayload env data size s.Position)).1 < 0 := by
  unfold chunkStep; dsimp only; split <;> simp_all

theorem chunkStep_next (s : LoopState σ)
    (h : (chunkStep env sink fd data size s).2.1 = false) :
    (chunkStep env sink fd data size s).2.2 =
      { len := s.len + (sink.writev s.dev fd (chunkHeader env data size s)
          (chunkPayload env data size s.Position)).1,
        Position := s.Position + packetLength env size s.Position,
        insertSampleHeader := 0,
        FrameHeaderSeen := frameHeaderCheck s.insertSampleHeader s.FrameHeaderSeen data size,
        Pts := env.INVALID_PTS_VALUE,
        dev := (sink.writev s.dev fd (chunkHeader env data size s)
          (chunkPayload env data size s.Position)).2 } := by
  unfold chunkStep at h ⊢; dsimp only at h ⊢; split <;> simp_all

theorem chunkStep_stop (s : LoopState σ)
    (h : (chunkStep env sink fd data size s).2.1 = true) :
    (chunkStep env sink fd data size s).2.2 =
      { len := (sink.writev s.dev fd (chunkHeader env data size s)
          (chunkPayload env data size s.Position)).1,
        Position := s.Position,
        insertSampleHeader := 0,
        FrameHeaderSeen := frameHeaderCheck s.insertSampleHeader s.FrameHeaderSeen data size,
        Pts := s.Pts,
        dev := (sink.writev s.dev fd (chunkHeader env data size s)
          (chunkPayload env data size s.Position)).2 } := by
  unfold chunkStep at h ⊢; dsimp only at h ⊢; split <;> simp_all

/-- Induction over the turns of the loop. -/
theorem chunkLoop_induct (hMAX : 0 < env.MAX_PES_PACKET_SIZE)
    (P : LoopState σ → LoopState σ → List WriteRec → Prop)
    (hdone : ∀ s, ¬ s.Position < size → P s s [])
    (hbrk : ∀ s, 0 ≤ s.Position → s.Position < size →
      (chunkStep env sink fd data size s).2.1 = true →
      P s (chunkStep env sink fd data size s).2.2 [(chunkStep env sink fd data size s).1])
    (hstep : ∀ s s2 ws, 0 ≤ s.Position → s.Position < size →
      (chunkStep env sink fd data size s).2.1 = false →
      P (chunkStep env sink fd data size s).2.2 s2 ws →
      P s s2 ((chunkStep env sink fd data size s).1 :: ws)) :
    ∀ (fuel : Nat) (s s2 : LoopState σ) (ws : List WriteRec), 0 ≤ s.Position →
      chunkLoop env sink fd data size fuel s = some (s2, ws) → P s s2 ws := by
  intro fuel
  induction fuel with
  | zero =>
    intro s s2 ws _ h
    unfold chunkLoop at h
    split at h
    · cases h
    · cases h; exact hdone _ ‹_›
  | succ n ih =>
    intro s s2 ws hpos h
    unfold chunkLoop at h
    split at h
    · rename_i hlt
      dsimp only at h
      split at h
      · rename_i hb
        cases h
        exact hbrk s hpos hlt hb
      · rename_i hb
        have hb2 : (chunkStep env sink fd data size s).2.1 = false := by simpa using hb
        split at h
        · cases h
        · rename_i s3 ws3 heq
          cases h
          refine hstep s _ _ hpos hlt hb2 (ih _ _ _ ?_ heq)
          rw [chunkStep_next _ _ _ _ _ _ hb2]
          have := packetLength_bounds env size hMAX hlt
          dsimp only; omega
    · cases h; exact hdone _ ‹_›

theorem chunkLoop_terminates (hMAX : 0 < env.MAX_PES_PACKET_SIZE) :
    ∀ (fuel : Nat) (s : LoopState σ), (size - s.Position).toNat ≤ fuel →
      ∃ r, chunkLoop env sink fd data size fuel s = some r := by
  intro fuel
  induction fuel with
  | zero =>
    intro s h
    unfold chunkLoop
    have : ¬ s.Position < size := by omega
    simp [this]
  | succ n ih =>
    intro s h
    unfold chunkLoop
    split
    · rename_i hlt
      dsimp only
      split
      · exact ⟨_, rfl⟩
      · rename_i hb
        have hb2 : (chunkStep env sink fd data size s).2.1 = false := by simpa using hb
        have hb3 := packetLength_bounds env size hMAX hlt
        obtain ⟨r, hr⟩ := ih (chunkStep env sink fd data size s).2.2 (by
          rw [chunkStep_next _ _ _ _ _ _ hb2]; dsimp only; omega)
        rw [hr]
        exact ⟨_, rfl⟩
    · exact ⟨_, rfl⟩

end Loop

/-! ## What the loop writes -/

section Props
variable {σ : Type} (env : Env) (sink : Sink σ) (fd : Int) (data : List Nat) (size : Int)

theorem chunkPayload_length {Position : Int} (hMAX : 0 < env.MAX_PES_PACKET_SIZE)
    (hsize : size = (data.length : Int)) (h0 : 0 ≤ Position) (h : Position < size) :
    ((chunkPayload env data size Position).length : Int) = packetLength env size Position := by
  have hb := packetLength_bounds env size hMAX h
  unfold chunkPayload
  rw [List.length_take, List.length_drop]
  omega

theorem chunkPayload_append_drop {Position : Int} (hMAX : 0 < env.MAX_PES_PACKET_SIZE)
    (h0 : 0 ≤ Position) (h : Position < size) :
    chunkPayload env data size Position ++
        data.drop (Position + packetLength env size Position).toNat =
      data.drop Position.toNat := by
  have hb := packetLength_bounds env size hMAX h
  unfold chunkPayload
  have e : (Position + packetLength env size Position).toNat =
      Position.toNat + (packetLength env size Position).toNat := by omega
  rw [e, ← List.drop_drop, List.take_append_drop]

/-- Every write of the loop comes from the call site of line 254. -/
theorem chunkLoop_site (hMAX : 0 < env.MAX_PES_PACKET_SIZE)
    (fuel : Nat) (s s2 : LoopState σ) (ws : List WriteRec) (h0 : 0 ≤ s.Position)
    (h : chunkLoop env sink fd data size fuel s = some (s2, ws)) :
    ∀ w ∈ ws, w.site = WriteSite.chunk := by
  refine chunkLoop_induct env sink fd data size hMAX
    (fun _ _ ws => ∀ w ∈ ws, w.site = WriteSite.chunk) ?_ ?_ ?_ fuel s s2 ws h0 h
  · intro s _ w hw; cases hw
  · intro s _ _ _ w hw
    simp only [List.mem_singleton] at hw
    rw [hw, chunkStep_write]
  · intro s s2 ws _ _ _ ih w hw
    rcases List.mem_cons.1 hw with hw | hw
    · rw [hw, chunkStep_write]
    · exact ih w hw

/-- When no write fails the loop hands over every byte from `Position` on. -/
theorem chunkLoop_payload (hMAX : 0 < env.MAX_PES_PACKET_SIZE)
    (hsize : size = (data.length : Int))
    (hsink : ∀ d f a b, 0 ≤ (sink.writev d f a b).1)
    (fuel : Nat) (s s2 : LoopState σ) (ws : List WriteRec) (h0 : 0 ≤ s.Position)
    (h : chunkLoop env sink fd data size fuel s = some (s2, ws)) :
    (ws.map WriteRec.iov1).flatten = data.drop s.Position.toNat := by
  refine chunkLoop_induct env sink fd data size hMAX
    (fun s _ ws => (ws.map WriteRec.iov1).flatten = data.drop s.Position.toNat)
    ?_ ?_ ?_ fuel s s2 ws h0 h
  · intro s hs
    have : data.length ≤ s.Position.toNat := by omega
    simp [List.drop_eq_nil_of_le this]
  · intro s _ _ hb
    have := (chunkStep_break env sink fd data size s).1 hb
    have := hsink s.dev fd (chunkHeader env data size s) (chunkPayload env data size s.Position)
    omega
  · intro s s2 ws hp hlt hb ih
    rw [chunkStep_next env sink fd data size s hb] at ih
    dsimp only at ih
    rw [List.map_cons, List.flatten_cons, ih, chunkStep_write]
    exact chunkPayload_append_drop env data size hMAX hp hlt

/-- Every chunk of the loop has between 1 and `MAX_PES_PACKET_SIZE` bytes. -/
theorem chunkLoop_bound (hMAX : 0 < env.MAX_PES_PACKET_SIZE)
    (hsize : size = (data.length : Int))
    (fuel : Nat) (s s2 : LoopState σ) (ws : List WriteRec) (h0 : 0 ≤ s.Position)
    (h : chunkLoop env sink fd data size fuel s = some (s2, ws)) :
    ∀ w ∈ ws, 1 ≤ (w.iov1.length : Int) ∧ (w.iov1.length : Int) ≤ env.MAX_PES_PACKET_SIZE := by
  have key : ∀ s : LoopState σ, 0 ≤ s.Position → s.Position < size →
      1 ≤ ((chunkStep env sink fd data size s).1.iov1.length : Int) ∧
      ((chunkStep env sink fd data size s).1.iov1.length : Int) ≤ env.MAX_PES_PACKET_SIZE := by
    intro s hp hlt
    rw [chunkStep_write]
    dsimp only
    rw [chunkPayload_length env data size hMAX hsize hp hlt]
    have := packetLength_bounds env size hMAX hlt
    omega
  refine chunkLoop_induct env sink fd data size hMAX
    (fun _ _ ws => ∀ w ∈ ws, 1 ≤ (w.iov1.length : Int) ∧
      (w.iov1.length : Int) ≤ env.MAX_PES_PACKET_SIZE) ?_ ?_ ?_ fuel s s2 ws h0 h
  · intro s _ w hw; cases hw
  · intro s hp hlt _ w hw
    simp only [List.mem_singleton] at hw
    rw [hw]; exact key s hp hlt
  · intro s s2 ws hp hlt _ ih w hw
    rcases List.mem_cons.1 hw with hw | hw
    · rw [hw]; exact key s hp hlt
    · exact ih w hw

end Props

section Heads
variable {σ : Type} (env : Env) (sink : Sink σ) (fd : Int) (data : List Nat) (size : Int)

theorem frameHeaderCheck_zero (seen : Nat) : frameHeaderCheck 0 seen data size = seen := by
  simp [frameHeaderCheck]

/-- The first turn of a loop that is entered. -/
theorem chunkLoop_first (fuel : Nat) (s s2 : LoopState σ) (ws : List WriteRec)
    (hlt : s.Position < size)
    (h : chunkLoop env sink fd data size fuel s = some (s2, ws)) :
    ((chunkStep env sink fd data size s).2.1 = true ∧
        s2 = (chunkStep env sink fd data size s).2.2 ∧
        ws = [(chunkStep env sink fd data size s).1]) ∨
    ((chunkStep env sink fd data size s).2.1 = false ∧
        ∃ n ws2, chunkLoop env sink fd data size n (chunkStep env sink fd data size s).2.2
            = some (s2, ws2) ∧
          ws = (chunkStep env sink fd data size s).1 :: ws2) := by
  cases fuel with
  | zero =>
    unfold chunkLoop at h
    simp [hlt] at h
  | succ n =>
    unfold chunkLoop at h
    simp only [hlt, if_true] at h
    split at h
    · rename_i hb
      cases h
      exact Or.inl ⟨hb, rfl, rfl⟩
    · rename_i hb
      have hb2 : (chunkStep env sink fd data size s).2.1 = false := by simpa using hb
      split at h
      · cases h
      · rename_i s3 ws3 heq
        cases h
        exact Or.inr ⟨hb2, n, ws3, heq, rfl⟩

/-- After the first turn every header is the one `InsertPesHeader` builds for
the chunk with the invalid timestamp, and the flag is not touched. -/
theorem chunkLoop_later (hMAX : 0 < env.MAX_PES_PACKET_SIZE)
    (hsize : size = (data.length : Int))
    (fuel : Nat) (s s2 : LoopState σ) (ws : List WriteRec) (h0 : 0 ≤ s.Position)
    (h : chunkLoop env sink fd data size fuel s = some (s2, ws))
    (hins : s.insertSampleHeader = 0) (hpts : s.Pts = env.INVALID_PTS_VALUE) :
    (∀ w ∈ ws, w.iov0 = env.InsertPesHeader w.iov1.length env.VC1_VIDEO_PES_START_CODE
        env.INVALID_PTS_VALUE 0) ∧
      s2.FrameHeaderSeen = s.FrameHeaderSeen := by
  have key : ∀ s : LoopState σ, 0 ≤ s.Position → s.Position < size →
      s.insertSampleHeader = 0 → s.Pts = env.INVALID_PTS_VALUE →
      (chunkStep env sink fd data size s).1.iov0 =
        env.InsertPesHeader (chunkStep env sink fd data size s).1.iov1.length
          env.VC1_VIDEO_PES_START_CODE env.INVALID_PTS_VALUE 0 := by
    intro s hp hlt hi hq
    rw [chunkStep_write]
    dsimp only
    rw [chunkPayload_length env data size hMAX hsize hp hlt]
    simp [chunkHeader, hi, hq]
  refine chunkLoop_induct env sink fd data size hMAX
    (fun s s2 ws => s.insertSampleHeader = 0 → s.Pts = env.INVALID_PTS_VALUE →
      (∀ w ∈ ws, w.iov0 = env.InsertPesHeader w.iov1.length env.VC1_VIDEO_PES_START_CODE
        env.INVALID_PTS_VALUE 0) ∧ s2.FrameHeaderSeen = s.FrameHeaderSeen)
    ?_ ?_ ?_ fuel s s2 ws h0 h hins hpts
  · intro s _ _ _
    exact ⟨fun w hw => absurd hw (List.not_mem_nil w), rfl⟩
  · intro s hp hlt hb hi hq
    refine ⟨?_, ?_⟩
    · intro w hw
      simp only [List.mem_singleton] at hw
      rw [hw]; exact key s hp hlt hi hq
    · rw [chunkStep_stop env sink fd data size s hb]
      simp [hi, frameHeaderCheck_zero]
  · intro s s2 ws hp hlt hb ih hi hq
    rw [chunkStep_next env sink fd data size s hb] at ih
    obtain ⟨ih1, ih2⟩ := ih rfl rfl
    refine ⟨?_, ?_⟩
    · intro w hw
      rcases List.mem_cons.1 hw with hw | hw
      · rw [hw]; exact key s hp hlt hi hq
      · exact ih1 w hw
    · rw [ih2]; simp [hi, frameHeaderCheck_zero]

/-- A failed write is the last write of the loop and its status is the `len`
the loop leaves. -/
theorem chunkLoop_failure (hMAX : 0 < env.MAX_PES_PACKET_SIZE)
    (fuel : Nat) (s s2 : LoopState σ) (ws : List WriteRec) (h0 : 0 ≤ s.Position)
    (h : chunkLoop env sink fd data size fuel s = some (s2, ws)) :
    ∀ pre w post, ws = pre ++ w :: post → w.res < 0 → post = [] ∧ s2.len = w.res := by
  refine chunkLoop_induct env sink fd data size hMAX
    (fun _ s2 ws => ∀ pre w post, ws = pre ++ w :: post → w.res < 0 →
      post = [] ∧ s2.len = w.res) ?_ ?_ ?_ fuel s s2 ws h0 h
  · intro s _ pre w post e
    cases pre <;> cases e
  · intro s _ _ hb pre w post e _
    cases pre with
    | nil =>
      simp only [List.nil_append, List.cons.injEq] at e
      obtain ⟨e1, e2⟩ := e
      refine ⟨e2.symm, ?_⟩
      rw [chunkStep_stop env sink fd data size s hb, ← e1, chunkStep_write]
    | cons a pre =>
      simp only [List.cons_append, List.cons.injEq] at e
      cases pre <;> simp at e
  · intro s s2 ws _ _ hb ih pre w post e hneg
    cases pre with
    | nil =>
      simp only [List.nil_append, List.cons.injEq] at e
      obtain ⟨e1, _⟩ := e
      have hnb : ¬ (chunkStep env sink fd data size s).2.1 = true := by simp [hb]
      rw [chunkStep_break] at hnb
      rw [← e1, chunkStep_write] at hneg
      exact absurd hneg hnb
    | cons a pre =>
      simp only [List.cons_append, List.cons.injEq] at e
      exact ih pre w post e.2 hneg

/-- When no write fails the loop adds the count of every write to `len`. -/
theorem chunkLoop_sum (hMAX : 0 < env.MAX_PES_PACKET_SIZE)
    (fuel : Nat) (s s2 : LoopState σ) (ws : List WriteRec) (h0 : 0 ≤ s.Position)
    (h : chunkLoop env sink fd data size fuel s = some (s2, ws)) :
    (∀ w ∈ ws, 0 ≤ w.res) → s2.len = s.len + (ws.map WriteRec.res).sum := by
  refine chunkLoop_induct env sink fd data size hMAX
    (fun s s2 ws => (∀ w ∈ ws, 0 ≤ w.res) → s2.len = s.len + (ws.map WriteRec.res).sum)
    ?_ ?_ ?_ fuel s s2 ws h0 h
  · intro s _ _; simp
  · intro s _ _ hb hall
    have h1 := hall _ (List.mem_singleton.2 rfl)
    have h2 := (chunkStep_break env sink fd data size s).1 hb
    rw [chunkStep_write] at h1
    dsimp only at h1
    omega
  · intro s s2 ws _ _ hb ih hall
    rw [ih (fun w hw => hall w (List.mem_cons_of_mem _ hw)),
      chunkStep_next env sink fd data size s hb, List.map_cons, List.sum_cons, chunkStep_write]
    dsimp only
    omega

end Heads

/-! ## One call -/

section Call
variable {σ : Type} (env : Env) (sink : Sink σ)

theorem emitInitialHeader_site (st : WriterState) (dev : σ) (call : WriterAVCallData) :
    ∀ w ∈ (emitInitialHeader env sink st dev call).writes, w.site ≠ WriteSite.chunk := by
  intro w hw
  unfold emitInitialHeader at hw
  split at hw
  · simp only [List.mem_cons, List.mem_singleton, List.not_mem_nil, or_false] at hw
    rcases hw with hw | hw <;> rw [hw] <;> simp
  · cases hw

theorem emitInitialHeader_flag (st : WriterState) (dev : σ) (call : WriterAVCallData) :
    (emitInitialHeader env sink st dev call).initialHeader = 0 := by
  unfold emitInitialHeader
  split
  · rfl
  · rename_i h
    simpa using h

/-- The two ways a call with a valid handle ends: through the chunk loop, or
past it when the packet is empty. -/
theorem writeData_cases (fuel : Nat) (st : WriterState) (dev : σ) (call : WriterAVCallData)
    (r : Outcome σ) (hfd : 0 ≤ call.fd)
    (h : writeData env sink fuel st dev call = some r) :
    (∃ data s ws, call.packet.data = some data ∧ 0 < call.packet.size ∧
        chunkLoop env sink call.fd data call.packet.size fuel
          (loopInit (emitInitialHeader env sink st dev call).len st
            (emitInitialHeader env sink st dev call).dev call) = some (s, ws) ∧
        r = { ret := s.len,
              state := { initialHeader := (emitInitialHeader env sink st dev call).initialHeader,
                         FrameHeaderSeen := s.FrameHeaderSeen },
              Pts := s.Pts, dev := s.dev,
              writes := (emitInitialHeader env sink st dev call).writes ++ ws }) ∨
    ((call.packet.data = none ∨ call.packet.size ≤ 0) ∧
        r = { ret := (emitInitialHeader env sink st dev call).len,
              state := { initialHeader := (emitInitialHeader env sink st dev call).initialHeader,
                         FrameHeaderSeen := st.FrameHeaderSeen },
              Pts := call.Pts, dev := (emitInitialHeader env sink st dev call).dev,
              writes := (emitInitialHeader env sink st dev call).writes }) := by
  unfold writeData at h
  have hfd2 : ¬ call.fd < 0 := by omega
  simp only [hfd2, if_false] at h
  split at h
  · rename_i hd
    cases h
    exact Or.inr ⟨Or.inl hd, rfl⟩
  · rename_i data hd
    split at h
    · rename_i hs
      split at h
      · cases h
      · rename_i s ws heq
        cases h
        exact Or.inl ⟨data, s, ws, hd, hs, heq, rfl⟩
    · rename_i hs
      cases h
      exact Or.inr ⟨Or.inr (by omega), rfl⟩

/-- A call returns: `packet->size` turns of the loop are enough. -/
theorem writeData_terminates (hMAX : 0 < env.MAX_PES_PACKET_SIZE) (fuel : Nat)
    (st : WriterState) (dev : σ) (call : WriterAVCallData)
    (hfuel : call.packet.size.toNat ≤ fuel) :
    ∃ r, writeData env sink fuel st dev call = some r := by
  unfold writeData
  split
  · exact ⟨_, rfl⟩
  · dsimp only
    split
    · exact ⟨_, rfl⟩
    · rename_i data hd
      split
      · obtain ⟨q, hq⟩ := chunkLoop_terminates env sink call.fd data call.packet.size hMAX fuel
          { len := (emitInitialHeader env sink st dev call).len, Position := 0,
            insertSampleHeader := 1, FrameHeaderSeen := st.FrameHeaderSeen,
            Pts := call.Pts, dev := (emitInitialHeader env sink st dev call).dev }
          (by dsimp only; omega)
        rw [hq]
        exact ⟨_, rfl⟩
      · exact ⟨_, rfl⟩

theorem chunkWrites_append (hd : List WriteRec) (ws : List WriteRec) (ret : Int)
    (state : WriterState) (Pts : Int) (dev : σ)
    (h1 : ∀ w ∈ hd, w.site ≠ WriteSite.chunk) (h2 : ∀ w ∈ ws, w.site = WriteSite.chunk) :
    chunkWrites ({ ret := ret, state := state, Pts := Pts, dev := dev, writes := hd ++ ws } :
      Outcome σ) = ws := by
  unfold chunkWrites
  dsimp only
  rw [List.filter_append]
  have e1 : hd.filter (fun w => decide (w.site = WriteSite.chunk)) = [] := by
    rw [List.filter_eq_nil_iff]
    intro a ha
    simpa using h1 a ha
  have e2 : ws.filter (fun w => decide (w.site = WriteSite.chunk)) = ws := by
    rw [List.filter_eq_self]
    intro a ha
    simpa using h2 a ha
  rw [e1, e2, List.nil_append]

/-- The chunk writes of a call with a valid handle are the writes of its loop,
and there are none when the packet is empty. -/
theorem writeData_chunks (hMAX : 0 < env.MAX_PES_PACKET_SIZE) (fuel : Nat)
    (st : WriterState) (dev : σ) (call : WriterAVCallData)
    (r : Outcome σ) (hfd : 0 ≤ call.fd)
    (h : writeData env sink fuel st dev call = some r) :
    (∃ data s, call.packet.data = some data ∧ 0 < call.packet.size ∧
        chunkLoop env sink call.fd data call.packet.size fuel
          (loopInit (emitInitialHeader env sink st dev call).len st
            (emitInitialHeader env sink st dev call).dev call) = some (s, chunkWrites r) ∧
        r.writes = (emitInitialHeader env sink st dev call).writes ++ chunkWrites r ∧
        r.ret = s.len ∧ r.state.FrameHeaderSeen = s.FrameHeaderSeen ∧ r.Pts = s.Pts) ∨
    ((call.packet.data = none ∨ call.packet.size ≤ 0) ∧ chunkWrites r = [] ∧
        r.writes = (emitInitialHeader env sink st dev call).writes ∧
        r.ret = (emitInitialHeader env sink st dev call).len ∧
        r.state.FrameHeaderSeen = st.FrameHeaderSeen ∧ r.Pts = call.Pts) := by
  rcases writeData_cases env sink fuel st dev call r hfd h with
    ⟨data, s, ws, hd, hs, hl, hr⟩ | ⟨he, hr⟩
  · left
    have hsite := chunkLoop_site env sink call.fd data call.packet.size hMAX fuel _ s ws
      (by simp [loopInit]) hl
    have hc : chunkWrites r = ws := by
      rw [hr]
      exact chunkWrites_append _ _ _ _ _ _ (emitInitialHeader_site env sink st dev call) hsite
    refine ⟨data, s, hd, hs, ?_, ?_, ?_, ?_, ?_⟩
    · rw [hc]; exact hl
    · rw [hc, hr]
    · rw [hr]
    · rw [hr]
    · rw [hr]
  · right
    refine ⟨he, ?_, ?_, ?_, ?_, ?_⟩
    · have := chunkWrites_append (emitInitialHeader env sink st dev call).writes [] r.ret
        r.state r.Pts r.dev (emitInitialHeader_site env sink st dev call)
        (fun w hw => absurd hw (List.not_mem_nil w))
      rw [List.append_nil] at this
      rw [hr] at this ⊢
      exact this
    · rw [hr]
    · rw [hr]
    · rw [hr]
    · rw [hr]

end Call

/-! ## Properties of one call -/

section CallProps
variable {σ : Type} (env : Env) (sink : Sink σ)

/-- The loop of a call that is entered: its first write carries the header of
`chunkHeader`, every later one the plain header with the invalid timestamp,
and the flag it leaves is the one the first turn computed. -/
theorem chunkLoop_headers (fd : Int) (data : List Nat) (size : Int)
    (hMAX : 0 < env.MAX_PES_PACKET_SIZE) (hsize : size = (data.length : Int))
    (fuel : Nat) (s s2 : LoopState σ) (ws : List WriteRec)
    (h0 : 0 ≤ s.Position) (hlt : s.Position < size)
    (h : chunkLoop env sink fd data size fuel s = some (s2, ws)) :
    ∃ w ws2, ws = w :: ws2 ∧ w.iov0 = chunkHeader env data size s ∧
      (w.iov1.length : Int) = packetLength env size s.Position ∧
      (∀ v ∈ ws2, v.iov0 = env.InsertPesHeader v.iov1.length env.VC1_VIDEO_PES_START_CODE
        env.INVALID_PTS_VALUE 0) ∧
      s2.FrameHeaderSeen = frameHeaderCheck s.insertSampleHeader s.FrameHeaderSeen data size := by
  have hw1 : (chunkStep env sink fd data size s).1.iov0 = chunkHeader env data size s := by
    rw [chunkStep_write]
  have hw2 : ((chunkStep env sink fd data size s).1.iov1.length : Int) =
      packetLength env size s.Position := by
    rw [chunkStep_write]
    exact chunkPayload_length env data size hMAX hsize h0 hlt
  rcases chunkLoop_first env sink fd data size fuel s s2 ws hlt h with
    ⟨hb, e1, e2⟩ | ⟨hb, n, ws2, hl, e2⟩
  · refine ⟨_, [], e2, hw1, hw2, fun v hv => absurd hv (List.not_mem_nil v), ?_⟩
    rw [e1, chunkStep_stop env sink fd data size s hb]
  · have hb3 := packetLength_bounds env size hMAX hlt
    have hn := chunkStep_next env sink fd data size s hb
    obtain ⟨t1, t2⟩ := chunkLoop_later env sink fd data size hMAX hsize n _ s2 ws2
      (by rw [hn]; dsimp only; omega) hl (by rw [hn]) (by rw [hn])
    refine ⟨_, ws2, e2, hw1, hw2, t1, ?_⟩
    rw [t2, hn]

theorem bytes_of_data {p : AVPacket} {data : List Nat} (h : p.data = some data) :
    p.bytes = data := by
  simp [AVPacket.bytes, h]

theorem bytes_of_empty {p : AVPacket} (hwf : p.WellFormed)
    (h : p.data = none ∨ p.size ≤ 0) : p.bytes = [] := by
  rcases h with h | h
  · simp [AVPacket.bytes, h]
  · unfold AVPacket.WellFormed at hwf
    have : p.bytes.length = 0 := by omega
    exact List.length_eq_zero.1 this

/-- C1: Lossless segmentation. For a call with a valid handle on a sink that
never reports a negative count, the payload buffers of the chunk writes,
concatenated in the order they were written, are exactly the bytes of the
access unit (of any length, zero included). -/
theorem C1_lossless_segmentation (fuel : Nat) (st : WriterState) (dev : σ)
    (call : WriterAVCallData) (hMAX : 0 < env.MAX_PES_PACKET_SIZE) (hfd : 0 ≤ call.fd)
    (hwf : call.packet.WellFormed)
    (hsink : ∀ d f a b, 0 ≤ (sink.writev d f a b).1)
    (hfuel : call.packet.size.toNat ≤ fuel) :
    ∃ r, writeData env sink fuel st dev call = some r ∧
      ((chunkWrites r).map WriteRec.iov1).flatten = call.packet.bytes := by
  obtain ⟨r, hr⟩ := writeData_terminates env sink hMAX fuel st dev call hfuel
  refine ⟨r, hr, ?_⟩
  rcases writeData_chunks env sink hMAX fuel st dev call r hfd hr with
    ⟨data, s, hd, _, hl, _⟩ | ⟨he, hc, _⟩
  · have hb := bytes_of_data hd
    have hsize : call.packet.size = (data.length : Int) := by rw [← hb]; exact hwf
    have := chunkLoop_payload env sink call.fd data call.packet.size hMAX hsize hsink fuel _ s
      (chunkWrites r) (by simp [loopInit]) hl
    rw [this, hb]
    simp [loopInit]
  · rw [hc, bytes_of_empty hwf he]
    rfl

theorem C1_lossless_segmentation_witness :
    (0 < demoEnv.MAX_PES_PACKET_SIZE) ∧ (0 ≤ (demoCall 77 [1, 2, 3, 4, 5, 6, 7, 8, 9]).fd) ∧
      (demoCall 77 [1, 2, 3, 4, 5, 6, 7, 8, 9]).packet.WellFormed ∧
      (∀ (d : Unit) (f : Int) (a b : List Nat), 0 ≤ (fullSink.writev d f a b).1) ∧
      ((demoCall 77 [1, 2, 3, 4, 5, 6, 7, 8, 9]).packet.size.toNat ≤ 9) ∧
      ∃ r, writeData demoEnv fullSink 9 initialState () (demoCall 77 [1, 2, 3, 4, 5, 6, 7, 8, 9])
          = some r ∧
        ((chunkWrites r).map WriteRec.iov1).flatten =
          (demoCall 77 [1, 2, 3, 4, 5, 6, 7, 8, 9]).packet.bytes :=
  have h1 : 0 < demoEnv.MAX_PES_PACKET_SIZE := by decide
  have h2 : 0 ≤ (demoCall 77 [1, 2, 3, 4, 5, 6, 7, 8, 9]).fd := by decide
  have h3 : (demoCall 77 [1, 2, 3, 4, 5, 6, 7, 8, 9]).packet.WellFormed := rfl
  have h4 : ∀ (d : Unit) (f : Int) (a b : List Nat), 0 ≤ (fullSink.writev d f a b).1 :=
    fun _ _ a b => Int.ofNat_nonneg (a.length + b.length)
  have h5 : (demoCall 77 [1, 2, 3, 4, 5, 6, 7, 8, 9]).packet.size.toNat ≤ 9 := by decide
  ⟨h1, h2, h3, h4, h5,
    C1_lossless_segmentation demoEnv fullSink 9 initialState () _ h1 h2 h3 h4 h5⟩

end CallProps

section CallHeaders
variable {σ : Type} (env : Env) (sink : Sink σ)

/-- The header of the first turn of a call: the header `InsertPesHeader`
builds with the timestamp of the call and, when `FrameHeaderSeen` stays 0, the
frame start code after it. -/
theorem chunkHeader_loopInit (data : List Nat) (size : Int) (len : Int) (st : WriterState)
    (dev : σ) (call : WriterAVCallData) :
    chunkHeader env data size (loopInit len st dev call) =
      env.InsertPesHeader (packetLength env size 0) env.VC1_VIDEO_PES_START_CODE call.Pts 0 ++
        (if frameHeaderCheck 1 st.FrameHeaderSeen data size = 0 then Vc1FrameStartCode
          else []) := by
  unfold chunkHeader loopInit
  dsimp only
  split <;> rename_i h <;> simp at h <;> simp [h]

/-- C5: In a call with a valid handle that writes at least one chunk, the
header of the first chunk is the one `InsertPesHeader` builds for that chunk
with the timestamp of the access unit (the frame start code may follow it),
and the header of every later chunk is the one it builds with
`INVALID_PTS_VALUE`. -/
theorem C5_timestamp_on_first_chunk (fuel : Nat) (st : WriterState) (dev : σ)
    (call : WriterAVCallData) (hMAX : 0 < env.MAX_PES_PACKET_SIZE) (hfd : 0 ≤ call.fd)
    (hwf : call.packet.WellFormed) (hfuel : call.packet.size.toNat ≤ fuel) :
    ∃ r, writeData env sink fuel st dev call = some r ∧
      (∀ w, (chunkWrites r).head? = some w →
        ∃ m, (m = [] ∨ m = Vc1FrameStartCode) ∧
          w.iov0 = env.InsertPesHeader w.iov1.length env.VC1_VIDEO_PES_START_CODE
            call.Pts 0 ++ m) ∧
      (∀ w ∈ (chunkWrites r).tail,
        w.iov0 = env.InsertPesHeader w.iov1.length env.VC1_VIDEO_PES_START_CODE
          env.INVALID_PTS_VALUE 0) := by
  obtain ⟨r, hr⟩ := writeData_terminates env sink hMAX fuel st dev call hfuel
  refine ⟨r, hr, ?_⟩
  rcases writeData_chunks env sink hMAX fuel st dev call r hfd hr with
    ⟨data, s, hd, hs, hl, _⟩ | ⟨_, hc, _⟩
  · have hb := bytes_of_data hd
    have hsize : call.packet.size = (data.length : Int) := by rw [← hb]; exact hwf
    obtain ⟨w, ws2, e, hw1, hw2, ht, _⟩ := chunkLoop_headers env sink call.fd data
      call.packet.size hMAX hsize fuel _ s (chunkWrites r) (by simp [loopInit])
      (by simpa [loopInit] using hs) hl
    rw [e]
    refine ⟨?_, ?_⟩
    · intro v hv
      simp only [List.head?_cons, Option.some.injEq] at hv
      subst hv
      rw [chunkHeader_loopInit] at hw1
      have hw3 : (w.iov1.length : Int) = packetLength env call.packet.size 0 := by
        simpa [loopInit] using hw2
      rw [← hw3] at hw1
      refine ⟨_, ?_, hw1⟩
      split
      · exact Or.inr rfl
      · exact Or.inl rfl
    · intro v hv
      exact ht v (by simpa using hv)
  · rw [hc]
    exact ⟨fun w hw => Option.noConfusion hw, fun w hw => absurd hw (List.not_mem_nil w)⟩

theorem C5_timestamp_on_first_chunk_witness :
    (0 < demoEnv.MAX_PES_PACKET_SIZE) ∧ (0 ≤ (demoCall 77 [1, 2, 3, 4, 5, 6, 7, 8, 9]).fd) ∧
      (demoCall 77 [1, 2, 3, 4, 5, 6, 7, 8, 9]).packet.WellFormed ∧
      ((demoCall 77 [1, 2, 3, 4, 5, 6, 7, 8, 9]).packet.size.toNat ≤ 9) ∧
      ∃ r, writeData demoEnv fullSink 9 initialState () (demoCall 77 [1, 2, 3, 4, 5, 6, 7, 8, 9])
          = some r ∧
        (∀ w, (chunkWrites r).head? = some w →
          ∃ m, (m = [] ∨ m = Vc1FrameStartCode) ∧
            w.iov0 = demoEnv.InsertPesHeader w.iov1.length demoEnv.VC1_VIDEO_PES_START_CODE
              (demoCall 77 [1, 2, 3, 4, 5, 6, 7, 8, 9]).Pts 0 ++ m) ∧
        (∀ w ∈ (chunkWrites r).tail,
          w.iov0 = demoEnv.InsertPesHeader w.iov1.length demoEnv.VC1_VIDEO_PES_START_CODE
            demoEnv.INVALID_PTS_VALUE 0) :=
  have h1 : 0 < demoEnv.MAX_PES_PACKET_SIZE := by decide
  have h2 : 0 ≤ (demoCall 77 [1, 2, 3, 4, 5, 6, 7, 8, 9]).fd := by decide
  have h3 : (demoCall 77 [1, 2, 3, 4, 5, 6, 7, 8, 9]).packet.WellFormed := rfl
  have h5 : (demoCall 77 [1, 2, 3, 4, 5, 6, 7, 8, 9]).packet.size.toNat ≤ 9 := by decide
  ⟨h1, h2, h3, h5, C5_timestamp_on_first_chunk demoEnv fullSink 9 initialState () _ h1 h2 h3 h5⟩

/-- C6: In a call with a valid handle every chunk write has a payload of at
least 1 and at most `MAX_PES_PACKET_SIZE` bytes. -/
theorem C6_chunk_payload_bounds (fuel : Nat) (st : WriterState) (dev : σ)
    (call : WriterAVCallData) (hMAX : 0 < env.MAX_PES_PACKET_SIZE) (hfd : 0 ≤ call.fd)
    (hwf : call.packet.WellFormed) (hfuel : call.packet.size.toNat ≤ fuel) :
    ∃ r, writeData env sink fuel st dev call = some r ∧
      ∀ w ∈ chunkWrites r,
        1 ≤ (w.iov1.length : Int) ∧ (w.iov1.length : Int) ≤ env.MAX_PES_PACKET_SIZE := by
  obtain ⟨r, hr⟩ := writeData_terminates env sink hMAX fuel st dev call hfuel
  refine ⟨r, hr, ?_⟩
  rcases writeData_chunks env sink hMAX fuel st dev call r hfd hr with
    ⟨data, s, hd, _, hl, _⟩ | ⟨_, hc, _⟩
  · have hb := bytes_of_data hd
    have hsize : call.packet.size = (data.length : Int) := by rw [← hb]; exact hwf
    exact chunkLoop_bound env sink call.fd data call.packet.size hMAX hsize fuel _ s
      (chunkWrites r) (by simp [loopInit]) hl
  · rw [hc]
    intro w hw
    cases hw

theorem C6_chunk_payload_bounds_witness :
    (0 < demoEnv.MAX_PES_PACKET_SIZE) ∧ (0 ≤ (demoCall 77 [1, 2, 3, 4, 5, 6, 7, 8, 9]).fd) ∧
      (demoCall 77 [1, 2, 3, 4, 5, 6, 7, 8, 9]).packet.WellFormed ∧
      ((demoCall 77 [1, 2, 3, 4, 5, 6, 7, 8, 9]).packet.size.toNat ≤ 9) ∧
      ∃ r, writeData demoEnv fullSink 9 initialState () (demoCall 77 [1, 2, 3, 4, 5, 6, 7, 8, 9])
          = some r ∧
        ∀ w ∈ chunkWrites r,
          1 ≤ (w.iov1.length : Int) ∧ (w.iov1.length : Int) ≤ demoEnv.MAX_PES_PACKET_SIZE :=
  have h1 : 0 < demoEnv.MAX_PES_PACKET_SIZE := by decide
  have h2 : 0 ≤ (demoCall 77 [1, 2, 3, 4, 5, 6, 7, 8, 9]).fd := by decide
  have h3 : (demoCall 77 [1, 2, 3, 4, 5, 6, 7, 8, 9]).packet.WellFormed := rfl
  have h5 : (demoCall 77 [1, 2, 3, 4, 5, 6, 7, 8, 9]).packet.size.toNat ≤ 9 := by decide
  ⟨h1, h2, h3, h5, C6_chunk_payload_bounds demoEnv fullSink 9 initialState () _ h1 h2 h3 h5⟩

/-- The flag a loop that is entered leaves is the one its first turn
computed. -/
theorem chunkLoop_flag (fd : Int) (data : List Nat) (size : Int)
    (hMAX : 0 < env.MAX_PES_PACKET_SIZE)
    (fuel : Nat) (s s2 : LoopState σ) (ws : List WriteRec) (h0 : 0 ≤ s.Position)
    (h : chunkLoop env sink fd data size fuel s = some (s2, ws)) (hlt : s.Position < size) :
    s2.FrameHeaderSeen = frameHeaderCheck s.insertSampleHeader s.FrameHeaderSeen data size := by
  have := chunkLoop_induct env sink fd data size hMAX
    (fun s s2 _ => (¬ s.Position < size → s2 = s) ∧ (s.Position < size →
      s2.FrameHeaderSeen = frameHeaderCheck s.insertSampleHeader s.FrameHeaderSeen data size))
    ?_ ?_ ?_ fuel s s2 ws h0 h
  · exact this.2 hlt
  · intro s hs
    exact ⟨fun _ => rfl, fun h => absurd h hs⟩
  · intro s _ hlt hb
    refine ⟨fun h => absurd hlt h, fun _ => ?_⟩
    rw [chunkStep_stop env sink fd data size s hb]
  · intro s s2 ws _ hlt hb ih
    refine ⟨fun h => absurd hlt h, fun _ => ?_⟩
    have hn := chunkStep_next env sink fd data size s hb
    by_cases hc : (chunkStep env sink fd data size s).2.2.Position < size
    · rw [ih.2 hc, hn]
      exact frameHeaderCheck_zero data size _
    · rw [ih.1 hc, hn]

theorem split_after_header (hd ws pre post : List WriteRec) (w : WriteRec)
    (h1 : ∀ v ∈ hd, v.site ≠ WriteSite.chunk) (hw : w.site = WriteSite.chunk)
    (e : hd ++ ws = pre ++ w :: post) : ∃ pre2, ws = pre2 ++ w :: post := by
  rcases List.append_eq_append_iff.1 e with ⟨a, _, e2⟩ | ⟨c, e1, e2⟩
  · exact ⟨a, e2⟩
  · cases c with
    | nil => exact ⟨[], by simpa using e2.symm⟩
    | cons x c =>
      simp only [List.cons_append, List.cons.injEq] at e2
      have hx : w ∈ hd := by rw [e1, ← e2.1]; simp
      exact absurd hw (h1 w hx)

/-- C10: When the sink answers a chunk write with a negative status, that
write is the last write of the call, the call returns exactly that status, and
the state flags are the ones set before the write: `initialHeader` cleared and
`FrameHeaderSeen` as the start-code check of the first turn left it. The
writes made before the failed one stay in the log. -/
theorem C10_failed_chunk_write (fuel : Nat) (st : WriterState) (dev : σ)
    (call : WriterAVCallData) (hMAX : 0 < env.MAX_PES_PACKET_SIZE) (hfd : 0 ≤ call.fd)
    (hfuel : call.packet.size.toNat ≤ fuel) :
    ∃ r, writeData env sink fuel st dev call = some r ∧
      ∀ pre w post, r.writes = pre ++ w :: post → w.site = WriteSite.chunk → w.res < 0 →
        post = [] ∧ r.ret = w.res ∧
        r.state = { initialHeader := 0,
                    FrameHeaderSeen := frameHeaderCheck 1 st.FrameHeaderSeen
                      call.packet.bytes call.packet.size } := by
  obtain ⟨r, hr⟩ := writeData_terminates env sink hMAX fuel st dev call hfuel
  refine ⟨r, hr, ?_⟩
  intro pre w post e hsite hneg
  have hflag := emitInitialHeader_flag env sink st dev call
  rcases writeData_cases env sink fuel st dev call r hfd hr with
    ⟨data, s, ws, hd, hs, hl, hr2⟩ | ⟨_, hr2⟩
  · have hb := bytes_of_data hd
    rw [hr2] at e
    dsimp only at e
    obtain ⟨pre2, e2⟩ := split_after_header _ ws pre post w
      (emitInitialHeader_site env sink st dev call) hsite e
    obtain ⟨p1, p2⟩ := chunkLoop_failure env sink call.fd data call.packet.size hMAX fuel _ s ws
      (by simp [loopInit]) hl pre2 w post e2 hneg
    refine ⟨p1, by rw [hr2]; exact p2, ?_⟩
    have hfl := chunkLoop_flag env sink call.fd data call.packet.size hMAX fuel _ s ws
      (by simp [loopInit]) hl (by simpa [loopInit] using hs)
    rw [hr2, hflag, hfl, hb]
    rfl
  · rw [hr2] at e
    dsimp only at e
    have hx : w ∈ (emitInitialHeader env sink st dev call).writes := by rw [e]; simp
    exact absurd hsite (emitInitialHeader_site env sink st dev call w hx)

end CallHeaders

/-! ## A whole epoch -/

section Epoch
variable {σ : Type} (env : Env) (sink : Sink σ)

theorem writeData_no_handle (fuel : Nat) (st : WriterState) (dev : σ)
    (call : WriterAVCallData) (hfd : call.fd < 0) :
    writeData env sink fuel st dev call =
      some { ret := 0, state := st, Pts := call.Pts, dev := dev, writes := [] } := by
  unfold writeData
  simp [hfd]

/-- The start-code decision of one call: the flag it leaves, the header of its
first chunk and the headers of the later ones. -/
theorem writeData_marker (fuel : Nat) (st : WriterState) (dev : σ)
    (call : WriterAVCallData) (hMAX : 0 < env.MAX_PES_PACKET_SIZE)
    (hwf : call.packet.WellFormed) (hfuel : call.packet.size.toNat ≤ fuel) :
    ∃ r, writeData env sink fuel st dev call = some r ∧
      r.state.FrameHeaderSeen =
        (if 0 ≤ call.fd ∧ 0 < call.packet.size then
          frameHeaderCheck 1 st.FrameHeaderSeen call.packet.bytes call.packet.size
        else st.FrameHeaderSeen) ∧
      (∀ w, (chunkWrites r).head? = some w →
        w.iov0 = env.InsertPesHeader w.iov1.length env.VC1_VIDEO_PES_START_CODE call.Pts 0 ++
          (if frameHeaderCheck 1 st.FrameHeaderSeen call.packet.bytes call.packet.size = 0
            then Vc1FrameStartCode else [])) ∧
      (∀ w ∈ (chunkWrites r).tail,
        w.iov0 = env.InsertPesHeader w.iov1.length env.VC1_VIDEO_PES_START_CODE
          env.INVALID_PTS_VALUE 0) := by
  by_cases hfd : 0 ≤ call.fd
  · obtain ⟨r, hr⟩ := writeData_terminates env sink hMAX fuel st dev call hfuel
    refine ⟨r, hr, ?_⟩
    rcases writeData_chunks env sink hMAX fuel st dev call r hfd hr with
      ⟨data, s, hd, hs, hl, _, _, hf, _⟩ | ⟨he, hc, _, _, hf, _⟩
    · have hb := bytes_of_data hd
      have hsize : call.packet.size = (data.length : Int) := by rw [← hb]; exact hwf
      obtain ⟨w, ws2, e, hw1, hw2, ht, hfl⟩ := chunkLoop_headers env sink call.fd data
        call.packet.size hMAX hsize fuel _ s (chunkWrites r) (by simp [loopInit])
        (by simpa [loopInit] using hs) hl
      rw [e, hb]
      refine ⟨?_, ?_, ?_⟩
      · rw [hf, hfl]
        simp [hfd, hs, loopInit]
      · intro v hv
        simp only [List.head?_cons, Option.some.injEq] at hv
        subst hv
        rw [chunkHeader_loopInit] at hw1
        have hw3 : (w.iov1.length : Int) = packetLength env call.packet.size 0 := by
          simpa [loopInit] using hw2
        rw [← hw3] at hw1
        exact hw1
      · intro v hv
        exact ht v (by simpa using hv)
    · have hb := bytes_of_empty hwf he
      have hz : ¬ 0 < call.packet.size := by
        unfold AVPacket.WellFormed at hwf
        rw [hb] at hwf
        simp at hwf
        omega
      rw [hc, hf]
      refine ⟨by simp [hz], fun w hw => Option.noConfusion hw,
        fun w hw => absurd hw (List.not_mem_nil w)⟩
  · have hlt : call.fd < 0 := by omega
    refine ⟨_, writeData_no_handle env sink fuel st dev call hlt, ?_, ?_, ?_⟩
    · simp [hfd]
    · intro w hw
      simp [chunkWrites] at hw
    · intro w hw
      simp [chunkWrites] at hw

theorem frameHeaderCheck_seen (ins seen : Nat) (data : List Nat) (size : Int) (h : seen ≠ 0) :
    frameHeaderCheck ins seen data size = seen := by
  simp [frameHeaderCheck, h]

theorem frameHeaderCheck_found (data : List Nat) (size : Int) (h3 : 3 < size)
    (hm : data.take 4 = Vc1FrameStartCode) : frameHeaderCheck 1 0 data size = 1 := by
  simp [frameHeaderCheck, h3, hm]

theorem frameHeaderCheck_absent (data : List Nat) (size : Int)
    (h : ¬ (3 < size ∧ data.take 4 = Vc1FrameStartCode)) : frameHeaderCheck 1 0 data size = 0 := by
  unfold frameHeaderCheck
  split
  · rename_i hc
    exact absurd ⟨hc.2.2.1, hc.2.2.2⟩ h
  · rfl

/-- A property of the state that every call keeps, and a property of every
call made on such a state, hold along a whole feed, which returns. -/
theorem feed_forall (fuel : Nat) (Inv : WriterState → Prop) (Ok : WriterAVCallData → Prop)
    (Q : WriterAVCallData → Outcome σ → Prop)
    (hstep : ∀ st dev c, Inv st → Ok c →
      ∃ r, writeData env sink fuel st dev c = some r ∧ Inv r.state ∧ Q c r) :
    ∀ (calls : List WriterAVCallData) (st : WriterState) (dev : σ), Inv st →
      (∀ c ∈ calls, Ok c) →
      ∃ rs, feed env sink fuel st dev calls = some rs ∧ List.Forall₂ Q calls rs := by
  intro calls
  induction calls with
  | nil =>
    intro st dev _ _
    exact ⟨[], rfl, List.Forall₂.nil⟩
  | cons c cs ih =>
    intro st dev hinv hok
    obtain ⟨r, hr, hinv2, hq⟩ := hstep st dev c hinv (hok c (List.mem_cons_self c cs))
    obtain ⟨rs, hrs, hall⟩ := ih r.state r.dev hinv2
      (fun x hx => hok x (List.mem_cons_of_mem c hx))
    refine ⟨r :: rs, ?_, List.Forall₂.cons hq hall⟩
    unfold feed
    rw [hr]
    dsimp only
    rw [hrs]

theorem feed_cons (fuel : Nat) (st : WriterState) (dev : σ) (c : WriterAVCallData)
    (cs : List WriterAVCallData) (r : Outcome σ) (rs : List (Outcome σ))
    (h1 : writeData env sink fuel st dev c = some r)
    (h2 : feed env sink fuel r.state r.dev cs = some rs) :
    feed env sink fuel st dev (c :: cs) = some (r :: rs) := by
  unfold feed
  rw [h1]
  dsimp only
  rw [h2]

theorem forall₂_right {α β : Type} (P : β → Prop) (xs : List α) (ys : List β)
    (h : List.Forall₂ (fun _ y => P y) xs ys) : ∀ y ∈ ys, P y := by
  induction h with
  | nil => intro y hy; cases hy
  | cons h1 _ ih =>
    intro y hy
    rcases List.mem_cons.1 hy with hy | hy
    · rw [hy]; exact h1
    · exact ih y hy

/-- Once `FrameHeaderSeen` is set no call of a feed puts the frame start code
in a header, and the flag stays set. -/
theorem feed_flag_set (fuel : Nat) (hMAX : 0 < env.MAX_PES_PACKET_SIZE)
    (calls : List WriterAVCallData) (st : WriterState) (dev : σ)
    (hseen : st.FrameHeaderSeen ≠ 0)
    (hok : ∀ c ∈ calls, c.packet.WellFormed ∧ c.packet.size.toNat ≤ fuel) :
    ∃ rs, feed env sink fuel st dev calls = some rs ∧
      List.Forall₂ (fun c r => PlainHeaders env c.Pts (chunkWrites r) ∧
        r.state.FrameHeaderSeen ≠ 0) calls rs := by
  refine feed_forall env sink fuel (fun st => st.FrameHeaderSeen ≠ 0)
    (fun c => c.packet.WellFormed ∧ c.packet.size.toNat ≤ fuel) _ ?_ calls st dev hseen hok
  intro st dev c hinv hc
  obtain ⟨r, hr, hf, hh, ht⟩ := writeData_marker env sink fuel st dev c hMAX hc.1 hc.2
  have hf2 : r.state.FrameHeaderSeen ≠ 0 := by
    rw [hf]
    split
    · rw [frameHeaderCheck_seen _ _ _ _ hinv]; exact hinv
    · exact hinv
  refine ⟨r, hr, hf2, ⟨?_, ht⟩, hf2⟩
  intro w hw
  have := hh w hw
  rw [frameHeaderCheck_seen _ _ _ _ hinv] at this
  simpa [hinv] using this

end Epoch

section EpochHeader
variable {σ : Type} (env : Env) (sink : Sink σ)

theorem emitInitialHeader_done (st : WriterState) (dev : σ) (call : WriterAVCallData)
    (h0 : st.initialHeader = 0) :
    (emitInitialHeader env sink st dev call).writes = [] := by
  simp [emitInitialHeader, h0]

/-- A call made once `initialHeader` is cleared writes chunks only and leaves
`initialHeader` cleared. -/
theorem writeData_after_header (fuel : Nat) (st : WriterState) (dev : σ)
    (call : WriterAVCallData) (hMAX : 0 < env.MAX_PES_PACKET_SIZE)
    (h0 : st.initialHeader = 0) (hfuel : call.packet.size.toNat ≤ fuel) :
    ∃ r, writeData env sink fuel st dev call = some r ∧ r.state.initialHeader = 0 ∧
      ∀ w ∈ r.writes, w.site = WriteSite.chunk := by
  by_cases hfd : 0 ≤ call.fd
  · obtain ⟨r, hr⟩ := writeData_terminates env sink hMAX fuel st dev call hfuel
    refine ⟨r, hr, ?_⟩
    have hflag := emitInitialHeader_flag env sink st dev call
    have hdone := emitInitialHeader_done env sink st dev call h0
    rcases writeData_cases env sink fuel st dev call r hfd hr with
      ⟨data, s, ws, _, _, hl, hr2⟩ | ⟨_, hr2⟩
    · have hsite := chunkLoop_site env sink call.fd data call.packet.size hMAX fuel _ s ws
        (by simp [loopInit]) hl
      rw [hr2]
      refine ⟨hflag, ?_⟩
      dsimp only
      rw [hdone, List.nil_append]
      exact hsite
    · rw [hr2]
      refine ⟨hflag, ?_⟩
      dsimp only
      rw [hdone]
      intro w hw
      cases hw
  · have hlt : call.fd < 0 := by omega
    refine ⟨_, writeData_no_handle env sink fuel st dev call hlt, h0, ?_⟩
    intro w hw
    cases hw

/-- The first call of an epoch with a valid handle writes the metadata packet,
then the extradata packet, then chunks only, and clears `initialHeader`. -/
theorem writeData_first (fuel : Nat) (st : WriterState) (dev : σ)
    (call : WriterAVCallData) (hMAX : 0 < env.MAX_PES_PACKET_SIZE)
    (h1 : st.initialHeader ≠ 0) (hfd : 0 ≤ call.fd)
    (hfuel : call.packet.size.toNat ≤ fuel) :
    ∃ r, writeData env sink fuel st dev call = some r ∧ r.state.initialHeader = 0 ∧
      ∃ w1 w2 rest, r.writes = w1 :: w2 :: rest ∧
        w1.site = WriteSite.metadata ∧
        w1.iov1 = PesPayload call.stream.codec.height call.stream.codec.width
          (env.crazyFramerate call.stream.r_frame_rate.num call.stream.r_frame_rate.den) ∧
        w2.site = WriteSite.extradata ∧
        w2.iov1 = call.stream.codec.extradata.take call.stream.codec.extradata_size.toNat ∧
        ∀ w ∈ rest, w.site = WriteSite.chunk := by
  obtain ⟨r, hr⟩ := writeData_terminates env sink hMAX fuel st dev call hfuel
  refine ⟨r, hr, ?_⟩
  have hflag := emitInitialHeader_flag env sink st dev call
  have hw : ∃ w1 w2, (emitInitialHeader env sink st dev call).writes = [w1, w2] ∧
      w1.site = WriteSite.metadata ∧
      w1.iov1 = PesPayload call.stream.codec.height call.stream.codec.width
        (env.crazyFramerate call.stream.r_frame_rate.num call.stream.r_frame_rate.den) ∧
      w2.site = WriteSite.extradata ∧
      w2.iov1 = call.stream.codec.extradata.take call.stream.codec.extradata_size.toNat := by
    unfold emitInitialHeader
    rw [if_pos h1]
    exact ⟨_, _, rfl, rfl, rfl, rfl, rfl⟩
  obtain ⟨w1, w2, e, a1, a2, a3, a4⟩ := hw
  rcases writeData_cases env sink fuel st dev call r hfd hr with
    ⟨data, s, ws, _, _, hl, hr2⟩ | ⟨_, hr2⟩
  · have hsite := chunkLoop_site env sink call.fd data call.packet.size hMAX fuel _ s ws
      (by simp [loopInit]) hl
    rw [hr2]
    refine ⟨hflag, w1, w2, ws, ?_, a1, a2, a3, a4, hsite⟩
    dsimp only
    rw [e]
    rfl
  · rw [hr2]
    refine ⟨hflag, w1, w2, [], ?_, a1, a2, a3, a4, fun w hw => absurd hw (List.not_mem_nil w)⟩
    dsimp only
    rw [e]

/-- C4: In an epoch (a feed from the state `reset` leaves) with at least one
call on a valid handle, the first two writes of the epoch are the metadata
packet and the extradata packet, built from the stream parameters of the first
call with a valid handle, and every later write of the epoch is a chunk write:
the metadata pair is written once, before every chunk. -/
theorem C4_metadata_once_first (fuel : Nat) (st0 : WriterState) (dev : σ)
    (pre : List WriterAVCallData) (c : WriterAVCallData) (cs : List WriterAVCallData)
    (hMAX : 0 < env.MAX_PES_PACKET_SIZE)
    (hpre : ∀ p ∈ pre, p.fd < 0) (hfd : 0 ≤ c.fd)
    (hfuel : ∀ x ∈ pre ++ c :: cs, x.packet.size.toNat ≤ fuel) :
    ∃ rs, feed env sink fuel (reset st0).2 dev (pre ++ c :: cs) = some rs ∧
      ∃ w1 w2 rest, rs.flatMap Outcome.writes = w1 :: w2 :: rest ∧
        w1.site = WriteSite.metadata ∧
        w1.iov1 = PesPayload c.stream.codec.height c.stream.codec.width
          (env.crazyFramerate c.stream.r_frame_rate.num c.stream.r_frame_rate.den) ∧
        w2.site = WriteSite.extradata ∧
        w2.iov1 = c.stream.codec.extradata.take c.stream.codec.extradata_size.toNat ∧
        ∀ w ∈ rest, w.site = WriteSite.chunk := by
  have hst : (reset st0).2.initialHeader ≠ 0 := by simp [reset]
  generalize (reset st0).2 = st at hst
  induction pre generalizing st dev with
  | nil =>
    simp only [List.nil_append, List.mem_cons] at hfuel ⊢
    obtain ⟨r, hr, hi, w1, w2, rest, e, a1, a2, a3, a4, a5⟩ :=
      writeData_first env sink fuel st dev c hMAX hst hfd (hfuel c (Or.inl rfl))
    obtain ⟨rs, hrs, hall⟩ := feed_forall env sink fuel (fun st => st.initialHeader = 0)
      (fun x => x.packet.size.toNat ≤ fuel)
      (fun _ q => ∀ w ∈ q.writes, w.site = WriteSite.chunk)
      (fun st dev x hi hx => writeData_after_header env sink fuel st dev x hMAX hi hx)
      cs r.state r.dev hi (fun x hx => hfuel x (Or.inr hx))
    refine ⟨r :: rs, feed_cons env sink fuel st dev c cs r rs hr hrs,
      w1, w2, rest ++ rs.flatMap Outcome.writes, ?_, a1, a2, a3, a4, ?_⟩
    · rw [List.flatMap_cons, e]
      rfl
    · intro w hw
      rcases List.mem_append.1 hw with hw | hw
      · exact a5 w hw
      · obtain ⟨q, hq, hwq⟩ := List.mem_flatMap.1 hw
        exact forall₂_right (fun q => ∀ w ∈ q.writes, w.site = WriteSite.chunk) cs rs hall
          q hq w hwq
  | cons p pre ih =>
    have hp : p.fd < 0 := hpre p (List.mem_cons_self p pre)
    have hw := writeData_no_handle env sink fuel st dev p hp
    obtain ⟨rs, hrs, w1, w2, rest, e, a⟩ := ih dev
      (fun x hx => hpre x (List.mem_cons_of_mem p hx))
      (fun x hx => hfuel x (by
        rw [List.cons_append]
        exact List.mem_cons_of_mem p hx)) st hst
    refine ⟨_ :: rs, feed_cons env sink fuel st dev p _ _ rs hw hrs, w1, w2, rest, ?_, a⟩
    rw [List.flatMap_cons, e]
    rfl

/-- C7: Reset reproducibility. From every writer state, `reset` returns 0 and
a feed of any sequence of calls after it returns, with the same outcome for
every call (return value, writes with their headers and payloads, state,
sink) as the feed of that sequence to a fresh writer on the same sink. -/
theorem C7_reset_reproducible (fuel : Nat) (st : WriterState) (dev : σ)
    (calls : List WriterAVCallData) (hMAX : 0 < env.MAX_PES_PACKET_SIZE)
    (hfuel : ∀ c ∈ calls, c.packet.size.toNat ≤ fuel) :
    (reset st).1 = 0 ∧
      ∃ rs, feed env sink fuel (reset st).2 dev calls = some rs ∧
        feed env sink fuel initialState dev calls = some rs := by
  refine ⟨rfl, ?_⟩
  obtain ⟨rs, hrs, _⟩ := feed_forall env sink fuel (fun _ => True)
    (fun c => c.packet.size.toNat ≤ fuel) (fun _ _ => True)
    (fun st dev c _ hc => by
      obtain ⟨r, hr⟩ := writeData_terminates env sink hMAX fuel st dev c hc
      exact ⟨r, hr, trivial, trivial⟩)
    calls initialState dev trivial hfuel
  exact ⟨rs, hrs, hrs⟩

end EpochHeader

section EpochMarker
variable {σ : Type} (env : Env) (sink : Sink σ)

/-- A call on no handle or with an empty packet writes no chunk and leaves the
flag as it was. -/
theorem writeData_empty (fuel : Nat) (st : WriterState) (dev : σ)
    (call : WriterAVCallData) (hMAX : 0 < env.MAX_PES_PACKET_SIZE)
    (he : call.fd < 0 ∨ call.packet.data = none ∨ call.packet.size ≤ 0)
    (hfuel : call.packet.size.toNat ≤ fuel) :
    ∃ r, writeData env sink fuel st dev call = some r ∧ chunkWrites r = [] ∧
      r.state.FrameHeaderSeen = st.FrameHeaderSeen := by
  by_cases hfd : 0 ≤ call.fd
  · obtain ⟨r, hr⟩ := writeData_terminates env sink hMAX fuel st dev call hfuel
    refine ⟨r, hr, ?_⟩
    rcases writeData_chunks env sink hMAX fuel st dev call r hfd hr with
      ⟨data, s, hd, hs, _⟩ | ⟨_, hc, _, _, hf, _⟩
    · rcases he with he | he | he
      · omega
      · rw [hd] at he; cases he
      · omega
    · exact ⟨hc, hf⟩
  · have hlt : call.fd < 0 := by omega
    exact ⟨_, writeData_no_handle env sink fuel st dev call hlt, rfl, rfl⟩

/-- C3: When the first non-empty access unit processed after `reset` on a
valid handle has at least 4 bytes and begins with 00 00 01 0D, no header
buffer of the epoch carries the frame start code: for every call of the epoch
the header of its first chunk is exactly what `InsertPesHeader` returns for
that chunk and the call's timestamp, and the header of every later chunk
exactly what it returns with `INVALID_PTS_VALUE`. -/
theorem C3_marker_present_never_inserted (fuel : Nat) (st0 : WriterState) (dev : σ)
    (pre : List WriterAVCallData) (c : WriterAVCallData) (post : List WriterAVCallData)
    (hMAX : 0 < env.MAX_PES_PACKET_SIZE)
    (hpre : ∀ p ∈ pre, (p.fd < 0 ∨ p.packet.data = none ∨ p.packet.size ≤ 0) ∧
      p.packet.size.toNat ≤ fuel)
    (hfd : 0 ≤ c.fd) (hwf : c.packet.WellFormed) (hcf : c.packet.size.toNat ≤ fuel)
    (h4 : 3 < c.packet.size) (hm : c.packet.bytes.take 4 = Vc1FrameStartCode)
    (hpost : ∀ x ∈ post, x.packet.WellFormed ∧ x.packet.size.toNat ≤ fuel) :
    ∃ rs, feed env sink fuel (reset st0).2 dev (pre ++ c :: post) = some rs ∧
      List.Forall₂ (fun x r => PlainHeaders env x.Pts (chunkWrites r)) (pre ++ c :: post) rs := by
  have hst : (reset st0).2.FrameHeaderSeen = 0 := rfl
  generalize (reset st0).2 = st at hst
  induction pre generalizing st dev with
  | nil =>
    obtain ⟨r, hr, hf, hh, ht⟩ := writeData_marker env sink fuel st dev c hMAX hwf hcf
    have hfc : frameHeaderCheck 1 st.FrameHeaderSeen c.packet.bytes c.packet.size = 1 := by
      rw [hst]; exact frameHeaderCheck_found _ _ h4 hm
    have hf2 : r.state.FrameHeaderSeen ≠ 0 := by
      rw [hf, if_pos ⟨hfd, by omega⟩, hfc]; decide
    obtain ⟨rs, hrs, hall⟩ := feed_flag_set env sink fuel hMAX post r.state r.dev hf2 hpost
    refine ⟨r :: rs, feed_cons env sink fuel st dev c post r rs hr hrs, ?_⟩
    refine List.Forall₂.cons ⟨?_, ht⟩ (hall.imp (fun _ _ h => h.1))
    intro w hw
    have := hh w hw
    rw [hfc] at this
    simpa using this
  | cons p pre ih =>
    obtain ⟨hp1, hp2⟩ := hpre p (List.mem_cons_self p pre)
    obtain ⟨r, hr, hc, hf⟩ := writeData_empty env sink fuel st dev p hMAX hp1 hp2
    obtain ⟨rs, hrs, hall⟩ := ih r.dev (fun x hx => hpre x (List.mem_cons_of_mem p hx))
      r.state (by rw [hf]; exact hst)
    refine ⟨r :: rs, feed_cons env sink fuel st dev p _ r rs hr hrs, ?_⟩
    refine List.Forall₂.cons ?_ hall
    rw [hc]
    exact ⟨fun w hw => Option.noConfusion hw, fun w hw => absurd hw (List.not_mem_nil w)⟩

/-- C2, as the code has it: the frame start code goes into the header of the
first chunk of an access unit only, never into a later chunk of the unit; once
a unit of at least 4 bytes that begins with 00 00 01 0D is processed (or the
flag is already set) the flag is set and no chunk of that unit or of any later
unit of the epoch has the start code inserted; and when the flag is 0 and the
unit does not begin with the start code, the code is inserted after the header
of its first chunk and the flag is left at 0. -/
theorem C2_marker_once_per_unit (fuel : Nat) (st : WriterState) (dev : σ)
    (c : WriterAVCallData) (cs : List WriterAVCallData)
    (hMAX : 0 < env.MAX_PES_PACKET_SIZE)
    (hfd : 0 ≤ c.fd) (hsz : 0 < c.packet.size)
    (hwf : c.packet.WellFormed) (hcf : c.packet.size.toNat ≤ fuel)
    (hcs : ∀ x ∈ cs, x.packet.WellFormed ∧ x.packet.size.toNat ≤ fuel) :
    ∃ r rs, writeData env sink fuel st dev c = some r ∧
      feed env sink fuel r.state r.dev cs = some rs ∧
      (∀ w ∈ (chunkWrites r).tail,
        w.iov0 = env.InsertPesHeader w.iov1.length env.VC1_VIDEO_PES_START_CODE
          env.INVALID_PTS_VALUE 0) ∧
      ((st.FrameHeaderSeen ≠ 0 ∨
          (3 < c.packet.size ∧ c.packet.bytes.take 4 = Vc1FrameStartCode)) →
        r.state.FrameHeaderSeen ≠ 0 ∧ PlainHeaders env c.Pts (chunkWrites r) ∧
        List.Forall₂ (fun x q => PlainHeaders env x.Pts (chunkWrites q) ∧
          q.state.FrameHeaderSeen ≠ 0) cs rs) ∧
      (st.FrameHeaderSeen = 0 →
        ¬ (3 < c.packet.size ∧ c.packet.bytes.take 4 = Vc1FrameStartCode) →
        r.state.FrameHeaderSeen = 0 ∧
        ∀ w, (chunkWrites r).head? = some w →
          w.iov0 = env.InsertPesHeader w.iov1.length env.VC1_VIDEO_PES_START_CODE c.Pts 0
            ++ Vc1FrameStartCode) := by
  obtain ⟨r, hr, hf, hh, ht⟩ := writeData_marker env sink fuel st dev c hMAX hwf hcf
  rw [if_pos ⟨hfd, hsz⟩] at hf
  obtain ⟨rs, hrs, _⟩ := feed_forall env sink fuel (fun _ => True)
    (fun x => x.packet.size.toNat ≤ fuel) (fun _ _ => True)
    (fun st dev x _ hx => by
      obtain ⟨q, hq⟩ := writeData_terminates env sink hMAX fuel st dev x hx
      exact ⟨q, hq, trivial, trivial⟩)
    cs r.state r.dev trivial (fun x hx => (hcs x hx).2)
  refine ⟨r, rs, hr, hrs, ht, ?_, ?_⟩
  · intro hset
    have hfc : frameHeaderCheck 1 st.FrameHeaderSeen c.packet.bytes c.packet.size ≠ 0 := by
      by_cases h0 : st.FrameHeaderSeen = 0
      · rcases hset with hset | hset
        · exact absurd h0 hset
        · rw [h0, frameHeaderCheck_found _ _ hset.1 hset.2]; decide
      · rw [frameHeaderCheck_seen _ _ _ _ h0]; exact h0
    have hf2 : r.state.FrameHeaderSeen ≠ 0 := by rw [hf]; exact hfc
    obtain ⟨rs2, hrs2, hall⟩ := feed_flag_set env sink fuel hMAX cs r.state r.dev hf2 hcs
    rw [hrs] at hrs2
    cases hrs2
    refine ⟨hf2, ⟨?_, ht⟩, hall⟩
    intro w hw
    have := hh w hw
    rw [if_neg hfc] at this
    simpa using this
  · intro h0 hno
    have hfc : frameHeaderCheck 1 st.FrameHeaderSeen c.packet.bytes c.packet.size = 0 := by
      rw [h0]; exact frameHeaderCheck_absent _ _ hno
    refine ⟨by rw [hf]; exact hfc, ?_⟩
    intro w hw
    have := hh w hw
    rw [if_pos hfc] at this
    exact this

/-- C2 fails as stated: in an epoch of two access units that do not begin with
the frame start code, the start code is inserted after the header of the first
chunk of both units, and the flag is still 0 after the first of them. -/
theorem C2_counterexample :
    ∃ r1 r2 w1 w2,
      feed demoEnv fullSink 5 (reset initialState).2 ()
          [demoCall 10 [1, 2, 3, 4, 5], demoCall 20 [6, 7, 8, 9, 10]] = some [r1, r2] ∧
        (chunkWrites r1).head? = some w1 ∧ (chunkWrites r2).head? = some w2 ∧
        w1.iov0 = demoEnv.InsertPesHeader 4 demoEnv.VC1_VIDEO_PES_START_CODE 10 0
          ++ [0x00, 0x00, 0x01, 0x0d] ∧
        w2.iov0 = demoEnv.InsertPesHeader 4 demoEnv.VC1_VIDEO_PES_START_CODE 20 0
          ++ [0x00, 0x00, 0x01, 0x0d] ∧
        r1.state.FrameHeaderSeen = 0 :=
  ⟨_, _, _, _, rfl, rfl, rfl, rfl, rfl, rfl⟩

/-- C8 fails on the first call of an epoch: with a sink that takes every byte,
the writes of the call report 47, 10, 15 and 8 bytes, 80 in all, and
`writeData` returns 33: the count of the metadata write is not in it. -/
theorem C8_first_call_drops_metadata_count :
    ∃ r, writeData demoEnv fullSink 5 initialState () (demoCall 77 [1, 2, 3, 4, 5]) = some r ∧
      r.writes.map WriteRec.site =
        [WriteSite.metadata, WriteSite.extradata, WriteSite.chunk, WriteSite.chunk] ∧
      r.writes.map WriteRec.res = [47, 10, 15, 8] ∧
      (r.writes.map WriteRec.res).sum = 80 ∧ r.ret = 33 :=
  ⟨_, rfl, rfl, rfl, rfl, rfl⟩

/-- C9 fails: on the first call of an epoch, when the sink fails the metadata
write with -1 the call returns 33, and when it fails the extradata write with
-1 the call returns 22: neither result is negative. -/
theorem C9_metadata_failure_not_returned :
    (∃ r, writeData demoEnv (failingSink 0) 5 initialState 0 (demoCall 77 [1, 2, 3, 4, 5])
        = some r ∧ r.writes.map WriteRec.res = [-1, 10, 15, 8] ∧ r.ret = 33) ∧
    (∃ r, writeData demoEnv (failingSink 1) 5 initialState 0 (demoCall 77 [1, 2, 3, 4, 5])
        = some r ∧ r.writes.map WriteRec.res = [47, -1, 15, 8] ∧ r.ret = 22) :=
  ⟨⟨_, rfl, rfl, rfl⟩, ⟨_, rfl, rfl, rfl⟩⟩

end EpochMarker

/-! ## The epoch properties at concrete inputs -/

theorem C2_marker_once_per_unit_witness :
    (0 < demoEnv.MAX_PES_PACKET_SIZE) ∧ (0 ≤ (demoCall 10 [0, 0, 1, 13, 7, 7]).fd) ∧
      (0 < (demoCall 10 [0, 0, 1, 13, 7, 7]).packet.size) ∧
      (demoCall 10 [0, 0, 1, 13, 7, 7]).packet.WellFormed ∧
      ((demoCall 10 [0, 0, 1, 13, 7, 7]).packet.size.toNat ≤ 6) ∧
      (∀ x ∈ [demoCall 20 [1, 2, 3, 4, 5]], x.packet.WellFormed ∧ x.packet.size.toNat ≤ 6) ∧
      ∃ r rs, writeData demoEnv fullSink 6 initialState () (demoCall 10 [0, 0, 1, 13, 7, 7])
          = some r ∧
        feed demoEnv fullSink 6 r.state r.dev [demoCall 20 [1, 2, 3, 4, 5]] = some rs ∧
        (∀ w ∈ (chunkWrites r).tail,
          w.iov0 = demoEnv.InsertPesHeader w.iov1.length demoEnv.VC1_VIDEO_PES_START_CODE
            demoEnv.INVALID_PTS_VALUE 0) ∧
        ((initialState.FrameHeaderSeen ≠ 0 ∨
            (3 < (demoCall 10 [0, 0, 1, 13, 7, 7]).packet.size ∧
              (demoCall 10 [0, 0, 1, 13, 7, 7]).packet.bytes.take 4 = Vc1FrameStartCode)) →
          r.state.FrameHeaderSeen ≠ 0 ∧
          PlainHeaders demoEnv (demoCall 10 [0, 0, 1, 13, 7, 7]).Pts (chunkWrites r) ∧
          List.Forall₂ (fun x q => PlainHeaders demoEnv x.Pts (chunkWrites q) ∧
            q.state.FrameHeaderSeen ≠ 0) [demoCall 20 [1, 2, 3, 4, 5]] rs) ∧
        (initialState.FrameHeaderSeen = 0 →
          ¬ (3 < (demoCall 10 [0, 0, 1, 13, 7, 7]).packet.size ∧
              (demoCall 10 [0, 0, 1, 13, 7, 7]).packet.bytes.take 4 = Vc1FrameStartCode) →
          r.state.FrameHeaderSeen = 0 ∧
          ∀ w, (chunkWrites r).head? = some w →
            w.iov0 = demoEnv.InsertPesHeader w.iov1.length demoEnv.VC1_VIDEO_PES_START_CODE
              (demoCall 10 [0, 0, 1, 13, 7, 7]).Pts 0 ++ Vc1FrameStartCode) :=
  have h1 : 0 < demoEnv.MAX_PES_PACKET_SIZE := by decide
  have h2 : 0 ≤ (demoCall 10 [0, 0, 1, 13, 7, 7]).fd := by decide
  have h3 : 0 < (demoCall 10 [0, 0, 1, 13, 7, 7]).packet.size := by decide
  have h4 : (demoCall 10 [0, 0, 1, 13, 7, 7]).packet.WellFormed := by decide
  have h5 : (demoCall 10 [0, 0, 1, 13, 7, 7]).packet.size.toNat ≤ 6 := by decide
  have h6 : ∀ x ∈ [demoCall 20 [1, 2, 3, 4, 5]],
      x.packet.WellFormed ∧ x.packet.size.toNat ≤ 6 := by decide
  ⟨h1, h2, h3, h4, h5, h6,
    C2_marker_once_per_unit demoEnv fullSink 6 initialState () _ _ h1 h2 h3 h4 h5 h6⟩

theorem C3_marker_present_never_inserted_witness :
    (0 < demoEnv.MAX_PES_PACKET_SIZE) ∧
      (∀ p ∈ [demoCall 5 [], demoClosed],
        (p.fd < 0 ∨ p.packet.data = none ∨ p.packet.size ≤ 0) ∧ p.packet.size.toNat ≤ 6) ∧
      (0 ≤ (demoCall 10 [0, 0, 1, 13, 7, 7]).fd) ∧
      (demoCall 10 [0, 0, 1, 13, 7, 7]).packet.WellFormed ∧
      ((demoCall 10 [0, 0, 1, 13, 7, 7]).packet.size.toNat ≤ 6) ∧
      (3 < (demoCall 10 [0, 0, 1, 13, 7, 7]).packet.size) ∧
      ((demoCall 10 [0, 0, 1, 13, 7, 7]).packet.bytes.take 4 = Vc1FrameStartCode) ∧
      (∀ x ∈ [demoCall 20 [1, 2, 3, 4, 5]], x.packet.WellFormed ∧ x.packet.size.toNat ≤ 6) ∧
      ∃ rs, feed demoEnv fullSink 6 (reset initialState).2 ()
          ([demoCall 5 [], demoClosed] ++
            demoCall 10 [0, 0, 1, 13, 7, 7] :: [demoCall 20 [1, 2, 3, 4, 5]]) = some rs ∧
        List.Forall₂ (fun x r => PlainHeaders demoEnv x.Pts (chunkWrites r))
          ([demoCall 5 [], demoClosed] ++
            demoCall 10 [0, 0, 1, 13, 7, 7] :: [demoCall 20 [1, 2, 3, 4, 5]]) rs :=
  have h1 : 0 < demoEnv.MAX_PES_PACKET_SIZE := by decide
  have h2 : ∀ p ∈ [demoCall 5 [], demoClosed],
      (p.fd < 0 ∨ p.packet.data = none ∨ p.packet.size ≤ 0) ∧ p.packet.size.toNat ≤ 6 := by
    decide
  have h3 : 0 ≤ (demoCall 10 [0, 0, 1, 13, 7, 7]).fd := by decide
  have h4 : (demoCall 10 [0, 0, 1, 13, 7, 7]).packet.WellFormed := by decide
  have h5 : (demoCall 10 [0, 0, 1, 13, 7, 7]).packet.size.toNat ≤ 6 := by decide
  have h6 : 3 < (demoCall 10 [0, 0, 1, 13, 7, 7]).packet.size := by decide
  have h7 : (demoCall 10 [0, 0, 1, 13, 7, 7]).packet.bytes.take 4 = Vc1FrameStartCode := by
    decide
  have h8 : ∀ x ∈ [demoCall 20 [1, 2, 3, 4, 5]],
      x.packet.WellFormed ∧ x.packet.size.toNat ≤ 6 := by decide
  ⟨h1, h2, h3, h4, h5, h6, h7, h8,
    C3_marker_present_never_inserted demoEnv fullSink 6 initialState () _ _ _
      h1 h2 h3 h4 h5 h6 h7 h8⟩

theorem C4_metadata_once_first_witness :
    (0 < demoEnv.MAX_PES_PACKET_SIZE) ∧ (∀ p ∈ [demoClosed], p.fd < 0) ∧
      (0 ≤ (demoCall 10 [1, 2, 3, 4, 5]).fd) ∧
      (∀ x ∈ [demoClosed] ++ demoCall 10 [1, 2, 3, 4, 5] :: [demoCall 20 [6, 7]],
        x.packet.size.toNat ≤ 5) ∧
      ∃ rs, feed demoEnv fullSink 5 (reset initialState).2 ()
          ([demoClosed] ++ demoCall 10 [1, 2, 3, 4, 5] :: [demoCall 20 [6, 7]]) = some rs ∧
        ∃ w1 w2 rest, rs.flatMap Outcome.writes = w1 :: w2 :: rest ∧
          w1.site = WriteSite.metadata ∧
          w1.iov1 = PesPayload (demoCall 10 [1, 2, 3, 4, 5]).stream.codec.height
            (demoCall 10 [1, 2, 3, 4, 5]).stream.codec.width
            (demoEnv.crazyFramerate (demoCall 10 [1, 2, 3, 4, 5]).stream.r_frame_rate.num
              (demoCall 10 [1, 2, 3, 4, 5]).stream.r_frame_rate.den) ∧
          w2.site = WriteSite.extradata ∧
          w2.iov1 = (demoCall 10 [1, 2, 3, 4, 5]).stream.codec.extradata.take
            (demoCall 10 [1, 2, 3, 4, 5]).stream.codec.extradata_size.toNat ∧
          ∀ w ∈ rest, w.site = WriteSite.chunk :=
  have h1 : 0 < demoEnv.MAX_PES_PACKET_SIZE := by decide
  have h2 : ∀ p ∈ [demoClosed], p.fd < 0 := by decide
  have h3 : 0 ≤ (demoCall 10 [1, 2, 3, 4, 5]).fd := by decide
  have h4 : ∀ x ∈ [demoClosed] ++ demoCall 10 [1, 2, 3, 4, 5] :: [demoCall 20 [6, 7]],
      x.packet.size.toNat ≤ 5 := by decide
  ⟨h1, h2, h3, h4, C4_metadata_once_first demoEnv fullSink 5 initialState () _ _ _ h1 h2 h3 h4⟩

theorem C7_reset_reproducible_witness :
    (0 < demoEnv.MAX_PES_PACKET_SIZE) ∧
      (∀ c ∈ [demoCall 10 [1, 2, 3, 4, 5], demoCall 20 [6, 7]], c.packet.size.toNat ≤ 5) ∧
      (reset { initialHeader := 0, FrameHeaderSeen := 1 }).1 = 0 ∧
      ∃ rs, feed demoEnv fullSink 5 (reset { initialHeader := 0, FrameHeaderSeen := 1 }).2 ()
            [demoCall 10 [1, 2, 3, 4, 5], demoCall 20 [6, 7]] = some rs ∧
        feed demoEnv fullSink 5 initialState ()
            [demoCall 10 [1, 2, 3, 4, 5], demoCall 20 [6, 7]] = some rs :=
  have h1 : 0 < demoEnv.MAX_PES_PACKET_SIZE := by decide
  have h2 : ∀ c ∈ [demoCall 10 [1, 2, 3, 4, 5], demoCall 20 [6, 7]],
      c.packet.size.toNat ≤ 5 := by decide
  ⟨h1, h2, C7_reset_reproducible demoEnv fullSink 5 _ () _ h1 h2⟩

theorem C10_failed_chunk_write_witness :
    (0 < demoEnv.MAX_PES_PACKET_SIZE) ∧ (0 ≤ (demoCall 77 [1, 2, 3, 4, 5, 6, 7, 8, 9]).fd) ∧
      ((demoCall 77 [1, 2, 3, 4, 5, 6, 7, 8, 9]).packet.size.toNat ≤ 9) ∧
      ∃ r, writeData demoEnv (failingSink 3) 9 initialState 0
          (demoCall 77 [1, 2, 3, 4, 5, 6, 7, 8, 9]) = some r ∧
        ∀ pre w post, r.writes = pre ++ w :: post → w.site = WriteSite.chunk → w.res < 0 →
          post = [] ∧ r.ret = w.res ∧
          r.state = { initialHeader := 0,
                      FrameHeaderSeen := frameHeaderCheck 1 initialState.FrameHeaderSeen
                        (demoCall 77 [1, 2, 3, 4, 5, 6, 7, 8, 9]).packet.bytes
                        (demoCall 77 [1, 2, 3, 4, 5, 6, 7, 8, 9]).packet.size } :=
  have h1 : 0 < demoEnv.MAX_PES_PACKET_SIZE := by decide
  have h2 : 0 ≤ (demoCall 77 [1, 2, 3, 4, 5, 6, 7, 8, 9]).fd := by decide
  have h3 : (demoCall 77 [1, 2, 3, 4, 5, 6, 7, 8, 9]).packet.size.toNat ≤ 9 := by decide
  ⟨h1, h2, h3, C10_failed_chunk_write demoEnv (failingSink 3) 9 initialState 0 _ h1 h2 h3⟩

/-! ## Short writes -/

section ShortWrites
variable {σ : Type} (env : Env) (sink : Sink σ)

/-- When every write of the loop is answered with a non-negative count, short
or not, the loop hands over every byte from `Position` on and adds every count
to `len`. -/
theorem chunkLoop_complete (fd : Int) (data : List Nat) (size : Int)
    (hMAX : 0 < env.MAX_PES_PACKET_SIZE) (hsize : size = (data.length : Int))
    (fuel : Nat) (s s2 : LoopState σ) (ws : List WriteRec) (h0 : 0 ≤ s.Position)
    (h : chunkLoop env sink fd data size fuel s = some (s2, ws)) :
    (∀ w ∈ ws, 0 ≤ w.res) →
      (ws.map WriteRec.iov1).flatten = data.drop s.Position.toNat ∧
      s2.len = s.len + (ws.map WriteRec.res).sum := by
  intro hall
  refine ⟨?_, chunkLoop_sum env sink fd data size hMAX fuel s s2 ws h0 h hall⟩
  revert hall
  refine chunkLoop_induct env sink fd data size hMAX
    (fun s _ ws => (∀ w ∈ ws, 0 ≤ w.res) →
      (ws.map WriteRec.iov1).flatten = data.drop s.Position.toNat)
    ?_ ?_ ?_ fuel s s2 ws h0 h
  · intro s hs _
    have : data.length ≤ s.Position.toNat := by omega
    simp [List.drop_eq_nil_of_le this]
  · intro s _ _ hb hall
    have h1 := hall _ (List.mem_singleton.2 rfl)
    have h2 := (chunkStep_break env sink fd data size s).1 hb
    rw [chunkStep_write] at h1
    dsimp only at h1
    omega
  · intro s s2 ws hp hlt hb ih hall
    have ih2 := ih (fun w hw => hall w (List.mem_cons_of_mem _ hw))
    rw [chunkStep_next env sink fd data size s hb] at ih2
    dsimp only at ih2
    rw [List.map_cons, List.flatten_cons, ih2, chunkStep_write]
    exact chunkPayload_append_drop env data size hMAX hp hlt

/-- C11, as the code has it: a write answered with a non-negative count, short
or not, does not stop the loop. In a call on a valid handle whose chunk writes
are all answered with a non-negative count, every chunk of the access unit is
written (the payloads concatenate to the whole unit); and when the `len` the
header block left and its sum with the counts of the chunk writes are values
of `int`, that sum is the result. Only a negative status ends the loop
early. -/
theorem C11_short_write_goes_on (fuel : Nat) (st : WriterState) (dev : σ)
    (call : WriterAVCallData) (hMAX : 0 < env.MAX_PES_PACKET_SIZE) (hfd : 0 ≤ call.fd)
    (hwf : call.packet.WellFormed) (hfuel : call.packet.size.toNat ≤ fuel) :
    ∃ r, writeData env sink fuel st dev call = some r ∧
      ((∀ w ∈ chunkWrites r, 0 ≤ w.res) →
        ((chunkWrites r).map WriteRec.iov1).flatten = call.packet.bytes ∧
        (FitsInt (emitInitialHeader env sink st dev call).len →
          FitsInt ((emitInitialHeader env sink st dev call).len +
            ((chunkWrites r).map WriteRec.res).sum) →
          r.ret = (emitInitialHeader env sink st dev call).len +
            ((chunkWrites r).map WriteRec.res).sum)) := by
  obtain ⟨r, hr⟩ := writeData_terminates env sink hMAX fuel st dev call hfuel
  refine ⟨r, hr, ?_⟩
  intro hall
  rcases writeData_chunks env sink hMAX fuel st dev call r hfd hr with
    ⟨data, s, hd, _, hl, _, hret, _⟩ | ⟨he, hc, _, hret, _⟩
  · have hb := bytes_of_data hd
    have hsize : call.packet.size = (data.length : Int) := by rw [← hb]; exact hwf
    obtain ⟨p1, p2⟩ := chunkLoop_complete env sink call.fd data call.packet.size hMAX hsize
      fuel _ s (chunkWrites r) (by simp [loopInit]) hl hall
    refine ⟨?_, fun _ _ => ?_⟩
    · rw [p1, hb]; simp [loopInit]
    · rw [hret, p2]; simp [loopInit]
  · rw [hc, bytes_of_empty hwf he, hret]
    simp

theorem C11_short_write_goes_on_witness :
    (0 < demoEnv.MAX_PES_PACKET_SIZE) ∧ (0 ≤ (demoCall 77 [1, 2, 3, 4, 5, 6, 7, 8, 9]).fd) ∧
      (demoCall 77 [1, 2, 3, 4, 5, 6, 7, 8, 9]).packet.WellFormed ∧
      ((demoCall 77 [1, 2, 3, 4, 5, 6, 7, 8, 9]).packet.size.toNat ≤ 9) ∧
      ∃ r, writeData demoEnv shortSink 9 initialState ()
          (demoCall 77 [1, 2, 3, 4, 5, 6, 7, 8, 9]) = some r ∧
        ((∀ w ∈ chunkWrites r, 0 ≤ w.res) →
          ((chunkWrites r).map WriteRec.iov1).flatten =
            (demoCall 77 [1, 2, 3, 4, 5, 6, 7, 8, 9]).packet.bytes ∧
          (FitsInt (emitInitialHeader demoEnv shortSink initialState ()
              (demoCall 77 [1, 2, 3, 4, 5, 6, 7, 8, 9])).len →
            FitsInt ((emitInitialHeader demoEnv shortSink initialState ()
                (demoCall 77 [1, 2, 3, 4, 5, 6, 7, 8, 9])).len +
              ((chunkWrites r).map WriteRec.res).sum) →
            r.ret = (emitInitialHeader demoEnv shortSink initialState ()
                (demoCall 77 [1, 2, 3, 4, 5, 6, 7, 8, 9])).len +
              ((chunkWrites r).map WriteRec.res).sum)) :=
  have h1 : 0 < demoEnv.MAX_PES_PACKET_SIZE := by decide
  have h2 : 0 ≤ (demoCall 77 [1, 2, 3, 4, 5, 6, 7, 8, 9]).fd := by decide
  have h3 : (demoCall 77 [1, 2, 3, 4, 5, 6, 7, 8, 9]).packet.WellFormed := rfl
  have h5 : (demoCall 77 [1, 2, 3, 4, 5, 6, 7, 8, 9]).packet.size.toNat ≤ 9 := by decide
  ⟨h1, h2, h3, h5, C11_short_write_goes_on demoEnv shortSink 9 initialState () _ h1 h2 h3 h5⟩

/-- C11 fails as stated: a sink that takes one byte of every write answers the
first chunk write of a 9-byte unit (11 header bytes and 4 payload bytes
offered) with the count 1, and `writeData` goes on to write the second and the
third chunk and returns 4. -/
theorem C11_counterexample :
    ∃ r w1 w2 w3,
      writeData demoEnv shortSink 9 initialState () (demoCall 77 [1, 2, 3, 4, 5, 6, 7, 8, 9])
          = some r ∧
        chunkWrites r = [w1, w2, w3] ∧
        w1.res = 1 ∧ 0 ≤ w1.res ∧ w1.res < ((w1.iov0.length + w1.iov1.length : Nat) : Int) ∧
        w1.iov1 = [1, 2, 3, 4] ∧ w2.iov1 = [5, 6, 7, 8] ∧ w3.iov1 = [9] ∧ r.ret = 4 :=
  ⟨_, _, _, _, rfl, rfl, rfl, by decide, by decide, rfl, rfl, rfl, rfl⟩

end ShortWrites

/-! ## Calls without effect, and `reset` -/

section Quiet
variable {σ : Type} (env : Env) (sink : Sink σ)

/-- C12: A call on a negative handle returns 0, writes nothing and leaves the
two state flags, the sink and the timestamp of the access unit as they were,
from every writer state and whatever the fuel; so when the metadata was still
due (`initialHeader` set) the next call on a valid handle starts with the
metadata write and the extradata write. -/
theorem C12_negative_handle_no_effect (fuel : Nat) (st : WriterState) (dev : σ)
    (call : WriterAVCallData) (hfd : call.fd < 0) :
    ∃ r, writeData env sink fuel st dev call = some r ∧
      r.ret = 0 ∧ r.writes = [] ∧ r.state = st ∧ r.Pts = call.Pts ∧ r.dev = dev ∧
      ∀ next : WriterAVCallData, 0 < env.MAX_PES_PACKET_SIZE → 0 ≤ next.fd →
        next.packet.size.toNat ≤ fuel → st.initialHeader ≠ 0 →
        ∃ q w1 w2 rest, writeData env sink fuel r.state r.dev next = some q ∧
          q.writes = w1 :: w2 :: rest ∧
          w1.site = WriteSite.metadata ∧ w2.site = WriteSite.extradata := by
  refine ⟨_, writeData_no_handle env sink fuel st dev call hfd, rfl, rfl, rfl, rfl, rfl, ?_⟩
  intro next hMAX hnext hfuel hdue
  obtain ⟨q, hq, _, w1, w2, rest, e, a1, _, a3, _⟩ :=
    writeData_first env sink fuel st dev next hMAX hdue hnext hfuel
  exact ⟨q, w1, w2, rest, hq, e, a1, a3⟩

theorem C12_negative_handle_no_effect_witness :
    (demoClosed.fd < 0) ∧
      ∃ r, writeData demoEnv fullSink 5 initialState () demoClosed = some r ∧
        r.ret = 0 ∧ r.writes = [] ∧ r.state = initialState ∧ r.Pts = demoClosed.Pts ∧
        r.dev = () ∧
        ∀ next : WriterAVCallData, 0 < demoEnv.MAX_PES_PACKET_SIZE → 0 ≤ next.fd →
          next.packet.size.toNat ≤ 5 → initialState.initialHeader ≠ 0 →
          ∃ q w1 w2 rest, writeData demoEnv fullSink 5 r.state r.dev next = some q ∧
            q.writes = w1 :: w2 :: rest ∧
            w1.site = WriteSite.metadata ∧ w2.site = WriteSite.extradata :=
  have h2 : demoClosed.fd < 0 := by decide
  ⟨h2, C12_negative_handle_no_effect demoEnv fullSink 5 initialState () _ h2⟩

/-- C15: Once the metadata is out (`initialHeader` cleared), a call on a valid
handle with an access unit of length zero or with a null payload pointer
returns 0, writes nothing and leaves the two state flags, the sink and the
timestamp of the access unit as they were, whatever the fuel. -/
theorem C15_empty_unit_no_effect (fuel : Nat) (st : WriterState) (dev : σ)
    (call : WriterAVCallData) (hfd : 0 ≤ call.fd) (hdone : st.initialHeader = 0)
    (hempty : call.packet.data = none ∨ call.packet.size ≤ 0) :
    ∃ r, writeData env sink fuel st dev call = some r ∧
      r.ret = 0 ∧ r.writes = [] ∧ r.state = st ∧ r.Pts = call.Pts ∧ r.dev = dev := by
  have hfd2 : ¬ call.fd < 0 := by omega
  have hh : emitInitialHeader env sink st dev call =
      { len := 0, initialHeader := st.initialHeader, dev := dev, writes := [] } := by
    simp [emitInitialHeader, hdone]
  have key : writeData env sink fuel st dev call =
      some { ret := 0, state := st, Pts := call.Pts, dev := dev, writes := [] } := by
    unfold writeData
    rw [if_neg hfd2]
    dsimp only
    rw [hh]
    rcases hempty with he | he
    · rw [he]
    · have hs : ¬ call.packet.size > 0 := by omega
      cases hd : call.packet.data with
      | none => rfl
      | some data =>
        dsimp only
        rw [if_neg hs]
  exact ⟨_, key, rfl, rfl, rfl, rfl, rfl⟩

theorem C15_empty_unit_no_effect_witness :
    (0 ≤ (demoCall 10 []).fd) ∧
      (({ initialHeader := 0, FrameHeaderSeen := 1 } : WriterState).initialHeader = 0) ∧
      ((demoCall 10 []).packet.data = none ∨ (demoCall 10 []).packet.size ≤ 0) ∧
      ∃ r, writeData demoEnv fullSink 0 { initialHeader := 0, FrameHeaderSeen := 1 } ()
          (demoCall 10 []) = some r ∧
        r.ret = 0 ∧ r.writes = [] ∧ r.state = { initialHeader := 0, FrameHeaderSeen := 1 } ∧
        r.Pts = (demoCall 10 []).Pts ∧ r.dev = () :=
  have h1 : 0 ≤ (demoCall 10 []).fd := by decide
  have h2 : ({ initialHeader := 0, FrameHeaderSeen := 1 } : WriterState).initialHeader = 0 := rfl
  have h3 : (demoCall 10 []).packet.data = none ∨ (demoCall 10 []).packet.size ≤ 0 :=
    Or.inr (by decide)
  ⟨h1, h2, h3, C15_empty_unit_no_effect demoEnv fullSink 0 _ () _ h1 h2 h3⟩

/-- C18: From every writer state `reset` returns 0 and leaves `initialHeader`
at 1 and `FrameHeaderSeen` at 0; a second `reset` right after it gives the
same result and the same state. -/
theorem C18_reset_clears_idempotent (st : WriterState) :
    (reset st).1 = 0 ∧ (reset st).2.initialHeader = 1 ∧ (reset st).2.FrameHeaderSeen = 0 ∧
      reset (reset st).2 = reset st :=
  ⟨rfl, rfl, rfl, rfl⟩

end Quiet

/-! ## The metadata and extradata packets -/

section MetadataPackets
variable {σ : Type} (env : Env) (sink : Sink σ)

theorem byteOf_lt (v : Int) (k : Nat) : byteOf v k < 256 := by
  unfold byteOf
  omega

/-- The four bytes of `le32 v` are the 32-bit little-endian encoding of `v`
(two's complement for a negative `v`). -/
theorem le32_value (v : Int) :
    byteOf v 0 + 256 * byteOf v 8 + 65536 * byteOf v 16 + 16777216 * byteOf v 24 =
      (v % 4294967296).toNat := by
  unfold byteOf
  norm_num
  omega

theorem PesPayload_eq (height width : Int) (crazyFramerate : Nat) :
    PesPayload height width crazyFramerate =
      SequenceLayerStartCode ++ Metadata.take 12 ++ le32 height ++ le32 width ++
        (Metadata.drop 20).take 12 ++ le32 crazyFramerate := by
  rfl

theorem PesPayload_length (height width : Int) (crazyFramerate : Nat) :
    (PesPayload height width crazyFramerate).length = 40 := by
  rfl

/-- The two writes of the header block when `initialHeader` is set: the
metadata packet and the extradata packet, both under a header built with
`INVALID_PTS_VALUE`. -/
theorem emitInitialHeader_writes (st : WriterState) (dev : σ) (call : WriterAVCallData)
    (h1 : st.initialHeader ≠ 0) :
    ∃ c1 c2, (emitInitialHeader env sink st dev call).writes =
      [⟨WriteSite.metadata,
          env.InsertPesHeader 40 env.VC1_VIDEO_PES_START_CODE env.INVALID_PTS_VALUE 0,
          PesPayload call.stream.codec.height call.stream.codec.width
            (env.crazyFramerate call.stream.r_frame_rate.num call.stream.r_frame_rate.den),
          c1⟩,
       ⟨WriteSite.extradata,
          env.InsertPesHeader call.stream.codec.extradata_size env.VC1_VIDEO_PES_START_CODE
            env.INVALID_PTS_VALUE 0,
          call.stream.codec.extradata.take call.stream.codec.extradata_size.toNat,
          c2⟩] := by
  unfold emitInitialHeader
  rw [if_pos h1]
  exact ⟨_, _, rfl⟩

/-- The writes of a call on a valid handle: those of the header block, then
the chunk writes. -/
theorem writeData_writes (fuel : Nat) (st : WriterState) (dev : σ) (call : WriterAVCallData)
    (r : Outcome σ) (hMAX : 0 < env.MAX_PES_PACKET_SIZE) (hfd : 0 ≤ call.fd)
    (h : writeData env sink fuel st dev call = some r) :
    r.writes = (emitInitialHeader env sink st dev call).writes ++ chunkWrites r := by
  rcases writeData_chunks env sink hMAX fuel st dev call r hfd h with
    ⟨_, _, _, _, _, hw, _⟩ | ⟨_, hc, hw, _⟩
  · exact hw
  · rw [hc, hw, List.append_nil]

/-- C13: On the first call of an epoch on a valid handle the first write is
the metadata packet, and its payload is, for every height, width and frame
interval, the start code 00 00 01 80, then the bytes 0 to 11 of the `Metadata`
template, the height and the width as 32-bit little-endian values (template
offsets 12 and 16), the template bytes 20 to 31 and the frame interval as a
32-bit little-endian value (template offset 32): 40 bytes in all. -/
theorem C13_metadata_layout (fuel : Nat) (st : WriterState) (dev : σ)
    (call : WriterAVCallData) (hMAX : 0 < env.MAX_PES_PACKET_SIZE) (hfd : 0 ≤ call.fd)
    (hdue : st.initialHeader ≠ 0) (hfuel : call.packet.size.toNat ≤ fuel) :
    ∃ r w rest, writeData env sink fuel st dev call = some r ∧ r.writes = w :: rest ∧
      w.site = WriteSite.metadata ∧
      w.iov1 = [0x00, 0x00, 0x01, 0x80] ++ Metadata.take 12 ++
        le32 call.stream.codec.height ++ le32 call.stream.codec.width ++
        (Metadata.drop 20).take 12 ++
        le32 (env.crazyFramerate call.stream.r_frame_rate.num call.stream.r_frame_rate.den) ∧
      w.iov1.length = 40 ∧ Metadata.length = 36 ∧
      (∀ v : Int, le32 v = [byteOf v 0, byteOf v 8, byteOf v 16, byteOf v 24] ∧
        (∀ k, byteOf v k < 256) ∧
        byteOf v 0 + 256 * byteOf v 8 + 65536 * byteOf v 16 + 16777216 * byteOf v 24 =
          (v % 4294967296).toNat) := by
  obtain ⟨r, hr⟩ := writeData_terminates env sink hMAX fuel st dev call hfuel
  obtain ⟨c1, c2, e⟩ := emitInitialHeader_writes env sink st dev call hdue
  have hw := writeData_writes env sink fuel st dev call r hMAX hfd hr
  rw [e] at hw
  exact ⟨r, _, _, hr, hw, rfl, rfl, rfl, rfl,
    fun v => ⟨rfl, fun k => byteOf_lt v k, le32_value v⟩⟩

theorem C13_metadata_layout_witness :
    (0 < demoEnv.MAX_PES_PACKET_SIZE) ∧ (0 ≤ (demoCall 10 [1, 2, 3, 4, 5]).fd) ∧
      (initialState.initialHeader ≠ 0) ∧
      ((demoCall 10 [1, 2, 3, 4, 5]).packet.size.toNat ≤ 5) ∧
      ∃ r w rest, writeData demoEnv fullSink 5 initialState () (demoCall 10 [1, 2, 3, 4, 5])
          = some r ∧ r.writes = w :: rest ∧
        w.site = WriteSite.metadata ∧
        w.iov1 = [0x00, 0x00, 0x01, 0x80] ++ Metadata.take 12 ++
          le32 (demoCall 10 [1, 2, 3, 4, 5]).stream.codec.height ++
          le32 (demoCall 10 [1, 2, 3, 4, 5]).stream.codec.width ++
          (Metadata.drop 20).take 12 ++
          le32 (demoEnv.crazyFramerate (demoCall 10 [1, 2, 3, 4, 5]).stream.r_frame_rate.num
            (demoCall 10 [1, 2, 3, 4, 5]).stream.r_frame_rate.den) ∧
        w.iov1.length = 40 ∧ Metadata.length = 36 ∧
        (∀ v : Int, le32 v = [byteOf v 0, byteOf v 8, byteOf v 16, byteOf v 24] ∧
          (∀ k, byteOf v k < 256) ∧
          byteOf v 0 + 256 * byteOf v 8 + 65536 * byteOf v 16 + 16777216 * byteOf v 24 =
            (v % 4294967296).toNat) :=
  have h1 : 0 < demoEnv.MAX_PES_PACKET_SIZE := by decide
  have h2 : 0 ≤ (demoCall 10 [1, 2, 3, 4, 5]).fd := by decide
  have h3 : initialState.initialHeader ≠ 0 := by decide
  have h4 : (demoCall 10 [1, 2, 3, 4, 5]).packet.size.toNat ≤ 5 := by decide
  ⟨h1, h2, h3, h4, C13_metadata_layout demoEnv fullSink 5 initialState () _ h1 h2 h3 h4⟩

/-- C17: On the first call of an epoch on a valid handle the second write is
the extradata packet: its payload is the extradata of the stream, byte for
byte, `extradata_size` bytes long, and its header and the header of the
metadata packet written before it are the ones `InsertPesHeader` builds with
`INVALID_PTS_VALUE`, whatever the timestamp of the access unit. -/
theorem C17_extradata_packet (fuel : Nat) (st : WriterState) (dev : σ)
    (call : WriterAVCallData) (hMAX : 0 < env.MAX_PES_PACKET_SIZE) (hfd : 0 ≤ call.fd)
    (hdue : st.initialHeader ≠ 0) (hfuel : call.packet.size.toNat ≤ fuel)
    (hx : call.stream.codec.extradata_size = (call.stream.codec.extradata.length : Int)) :
    ∃ r w1 w2 rest, writeData env sink fuel st dev call = some r ∧
      r.writes = w1 :: w2 :: rest ∧
      w1.site = WriteSite.metadata ∧
      w1.iov0 = env.InsertPesHeader w1.iov1.length env.VC1_VIDEO_PES_START_CODE
        env.INVALID_PTS_VALUE 0 ∧
      w2.site = WriteSite.extradata ∧
      w2.iov1 = call.stream.codec.extradata ∧
      (w2.iov1.length : Int) = call.stream.codec.extradata_size ∧
      w2.iov0 = env.InsertPesHeader call.stream.codec.extradata_size
        env.VC1_VIDEO_PES_START_CODE env.INVALID_PTS_VALUE 0 := by
  obtain ⟨r, hr⟩ := writeData_terminates env sink hMAX fuel st dev call hfuel
  obtain ⟨c1, c2, e⟩ := emitInitialHeader_writes env sink st dev call hdue
  have hw := writeData_writes env sink fuel st dev call r hMAX hfd hr
  rw [e] at hw
  have ht : call.stream.codec.extradata.take call.stream.codec.extradata_size.toNat =
      call.stream.codec.extradata := by
    apply List.take_of_length_le
    omega
  refine ⟨r, _, _, _, hr, hw, rfl, ?_, rfl, ht, ?_, rfl⟩
  · dsimp only
    rw [PesPayload_length]
    rfl
  · dsimp only
    rw [ht]
    exact hx.symm

theorem C17_extradata_packet_witness :
    (0 < demoEnv.MAX_PES_PACKET_SIZE) ∧ (0 ≤ (demoCall 10 [1, 2, 3, 4, 5]).fd) ∧
      (initialState.initialHeader ≠ 0) ∧
      ((demoCall 10 [1, 2, 3, 4, 5]).packet.size.toNat ≤ 5) ∧
      ((demoCall 10 [1, 2, 3, 4, 5]).stream.codec.extradata_size =
        ((demoCall 10 [1, 2, 3, 4, 5]).stream.codec.extradata.length : Int)) ∧
      ∃ r w1 w2 rest, writeData demoEnv fullSink 5 initialState ()
          (demoCall 10 [1, 2, 3, 4, 5]) = some r ∧
        r.writes = w1 :: w2 :: rest ∧
        w1.site = WriteSite.metadata ∧
        w1.iov0 = demoEnv.InsertPesHeader w1.iov1.length demoEnv.VC1_VIDEO_PES_START_CODE
          demoEnv.INVALID_PTS_VALUE 0 ∧
        w2.site = WriteSite.extradata ∧
        w2.iov1 = (demoCall 10 [1, 2, 3, 4, 5]).stream.codec.extradata ∧
        (w2.iov1.length : Int) = (demoCall 10 [1, 2, 3, 4, 5]).stream.codec.extradata_size ∧
        w2.iov0 = demoEnv.InsertPesHeader
          (demoCall 10 [1, 2, 3, 4, 5]).stream.codec.extradata_size
          demoEnv.VC1_VIDEO_PES_START_CODE demoEnv.INVALID_PTS_VALUE 0 :=
  have h1 : 0 < demoEnv.MAX_PES_PACKET_SIZE := by decide
  have h2 : 0 ≤ (demoCall 10 [1, 2, 3, 4, 5]).fd := by decide
  have h3 : initialState.initialHeader ≠ 0 := by decide
  have h4 : (demoCall 10 [1, 2, 3, 4, 5]).packet.size.toNat ≤ 5 := by decide
  have h5 : (demoCall 10 [1, 2, 3, 4, 5]).stream.codec.extradata_size =
      ((demoCall 10 [1, 2, 3, 4, 5]).stream.codec.extradata.length : Int) := by decide
  ⟨h1, h2, h3, h4, h5,
    C17_extradata_packet demoEnv fullSink 5 initialState () _ h1 h2 h3 h4 h5⟩

end MetadataPackets

/-! ## The timestamp of the access unit -/

section Timestamp
variable {σ : Type} (env : Env) (sink : Sink σ)

/-- A loop entered with the invalid timestamp in `call->Pts` leaves it
there. -/
theorem chunkLoop_pts_later (fd : Int) (data : List Nat) (size : Int)
    (hMAX : 0 < env.MAX_PES_PACKET_SIZE)
    (fuel : Nat) (s s2 : LoopState σ) (ws : List WriteRec) (h0 : 0 ≤ s.Position)
    (h : chunkLoop env sink fd data size fuel s = some (s2, ws))
    (hpts : s.Pts = env.INVALID_PTS_VALUE) : s2.Pts = env.INVALID_PTS_VALUE := by
  refine chunkLoop_induct env sink fd data size hMAX
    (fun s s2 _ => s.Pts = env.INVALID_PTS_VALUE → s2.Pts = env.INVALID_PTS_VALUE)
    ?_ ?_ ?_ fuel s s2 ws h0 h hpts
  · intro s _ hq; exact hq
  · intro s _ _ hb hq
    rw [chunkStep_stop env sink fd data size s hb]
    exact hq
  · intro s s2 ws _ _ hb ih _
    apply ih
    rw [chunkStep_next env sink fd data size s hb]

/-- The timestamp a loop that is entered leaves in `call->Pts`: the invalid
one when its first write is answered with a non-negative count, the one it
found when its first write fails. -/
theorem chunkLoop_pts (fd : Int) (data : List Nat) (size : Int)
    (hMAX : 0 < env.MAX_PES_PACKET_SIZE)
    (fuel : Nat) (s s2 : LoopState σ) (ws : List WriteRec) (h0 : 0 ≤ s.Position)
    (hlt : s.Position < size)
    (h : chunkLoop env sink fd data size fuel s = some (s2, ws)) :
    ∃ w ws2, ws = w :: ws2 ∧ (0 ≤ w.res → s2.Pts = env.INVALID_PTS_VALUE) ∧
      (w.res < 0 → s2.Pts = s.Pts) := by
  rcases chunkLoop_first env sink fd data size fuel s s2 ws hlt h with
    ⟨hb, e1, e2⟩ | ⟨hb, n, ws2, hl, e2⟩
  · have hneg := (chunkStep_break env sink fd data size s).1 hb
    refine ⟨_, [], e2, ?_, ?_⟩
    · intro hge
      rw [chunkStep_write] at hge
      dsimp only at hge
      omega
    · intro _
      rw [e1, chunkStep_stop env sink fd data size s hb]
  · have hnb : ¬ (chunkStep env sink fd data size s).2.1 = true := by simp [hb]
    rw [chunkStep_break] at hnb
    have hb3 := packetLength_bounds env size hMAX hlt
    have hn := chunkStep_next env sink fd data size s hb
    refine ⟨_, ws2, e2, ?_, ?_⟩
    · intro _
      exact chunkLoop_pts_later env sink fd data size hMAX n _ s2 ws2
        (by rw [hn]; dsimp only; omega) hl (by rw [hn])
    · intro hneg
      rw [chunkStep_write] at hneg
      dsimp only at hneg
      omega

/-- C14, as the code has it: of the caller's record `writeData` leaves the
packet (payload bytes and length), the stream and the handle as they were and
assigns to the timestamp only. After the call `call->Pts` is
`INVALID_PTS_VALUE` when the first chunk write of the call was answered with a
non-negative count, and the value it had before in every other case (no chunk
written, or the first chunk write failed). So the record has after the call
the values it had before exactly when the timestamp already was
`INVALID_PTS_VALUE` or no first chunk write succeeded. -/
theorem C14_pts_overwritten (fuel : Nat) (st : WriterState) (dev : σ)
    (call : WriterAVCallData) (hMAX : 0 < env.MAX_PES_PACKET_SIZE)
    (hfuel : call.packet.size.toNat ≤ fuel) :
    ∃ r, writeData env sink fuel st dev call = some r ∧
      (callAfter call r).packet = call.packet ∧
      (callAfter call r).stream = call.stream ∧
      (callAfter call r).fd = call.fd ∧
      (callAfter call r).Pts =
        (match (chunkWrites r).head? with
          | some w => if 0 ≤ w.res then env.INVALID_PTS_VALUE else call.Pts
          | none => call.Pts) ∧
      (callAfter call r = call ↔
        (call.Pts = env.INVALID_PTS_VALUE ∨
          ∀ w, (chunkWrites r).head? = some w → w.res < 0)) := by
  have key : ∃ r, writeData env sink fuel st dev call = some r ∧
      r.Pts = (match (chunkWrites r).head? with
          | some w => if 0 ≤ w.res then env.INVALID_PTS_VALUE else call.Pts
          | none => call.Pts) := by
    by_cases hfd : 0 ≤ call.fd
    · obtain ⟨r, hr⟩ := writeData_terminates env sink hMAX fuel st dev call hfuel
      refine ⟨r, hr, ?_⟩
      rcases writeData_chunks env sink hMAX fuel st dev call r hfd hr with
        ⟨data, s, _, hs, hl, _, _, _, hp⟩ | ⟨_, hc, _, _, _, hp⟩
      · obtain ⟨w, ws2, e, p1, p2⟩ := chunkLoop_pts env sink call.fd data call.packet.size
          hMAX fuel _ s (chunkWrites r) (by simp [loopInit]) (by simpa [loopInit] using hs) hl
        rw [e, hp]
        dsimp only [List.head?_cons]
        by_cases hge : 0 ≤ w.res
        · rw [if_pos hge]; exact p1 hge
        · rw [if_neg hge, p2 (by omega)]; rfl
      · rw [hc, hp]
        rfl
    · have hlt : call.fd < 0 := by omega
      exact ⟨_, writeData_no_handle env sink fuel st dev call hlt, rfl⟩
  obtain ⟨r, hr, hp⟩ := key
  refine ⟨r, hr, rfl, rfl, rfl, hp, ?_⟩
  have hiff : callAfter call r = call ↔ r.Pts = call.Pts := by
    constructor
    · intro h
      have := congrArg WriterAVCallData.Pts h
      exact this
    · intro h
      cases call
      simp only [callAfter] at h ⊢
      rw [h]
  rw [hiff, hp]
  cases hh : (chunkWrites r).head? with
  | none =>
    simp
  | some w =>
    dsimp only
    by_cases hge : 0 ≤ w.res
    · rw [if_pos hge]
      constructor
      · intro h; exact Or.inl h.symm
      · rintro (h | h)
        · exact h.symm
        · have := h w rfl
          omega
    · rw [if_neg hge]
      constructor
      · intro _
        refine Or.inr ?_
        intro v hv
        cases hv
        omega
      · intro _; rfl

theorem C14_pts_overwritten_witness :
    (0 < demoEnv.MAX_PES_PACKET_SIZE) ∧ ((demoCall 77 [1, 2, 3, 4, 5]).packet.size.toNat ≤ 5) ∧
      ∃ r, writeData demoEnv fullSink 5 initialState () (demoCall 77 [1, 2, 3, 4, 5]) = some r ∧
        (callAfter (demoCall 77 [1, 2, 3, 4, 5]) r).packet =
          (demoCall 77 [1, 2, 3, 4, 5]).packet ∧
        (callAfter (demoCall 77 [1, 2, 3, 4, 5]) r).stream =
          (demoCall 77 [1, 2, 3, 4, 5]).stream ∧
        (callAfter (demoCall 77 [1, 2, 3, 4, 5]) r).fd = (demoCall 77 [1, 2, 3, 4, 5]).fd ∧
        (callAfter (demoCall 77 [1, 2, 3, 4, 5]) r).Pts =
          (match (chunkWrites r).head? with
            | some w => if 0 ≤ w.res then demoEnv.INVALID_PTS_VALUE
                else (demoCall 77 [1, 2, 3, 4, 5]).Pts
            | none => (demoCall 77 [1, 2, 3, 4, 5]).Pts) ∧
        (callAfter (demoCall 77 [1, 2, 3, 4, 5]) r = demoCall 77 [1, 2, 3, 4, 5] ↔
          ((demoCall 77 [1, 2, 3, 4, 5]).Pts = demoEnv.INVALID_PTS_VALUE ∨
            ∀ w, (chunkWrites r).head? = some w → w.res < 0)) :=
  have h1 : 0 < demoEnv.MAX_PES_PACKET_SIZE := by decide
  have h2 : (demoCall 77 [1, 2, 3, 4, 5]).packet.size.toNat ≤ 5 := by decide
  ⟨h1, h2, C14_pts_overwritten demoEnv fullSink 5 initialState () _ h1 h2⟩

/-- C14 fails as stated: a call with timestamp 77 whose writes all succeed
leaves `INVALID_PTS_VALUE` (0x200000000 here), not 77, in `call->Pts`, so the
caller's record is not what it was before the call. -/
theorem C14_counterexample :
    ∃ r, writeData demoEnv fullSink 5 initialState () (demoCall 77 [1, 2, 3, 4, 5]) = some r ∧
      (demoCall 77 [1, 2, 3, 4, 5]).Pts = 77 ∧ r.Pts = 0x200000000 ∧
      r.Pts ≠ (demoCall 77 [1, 2, 3, 4, 5]).Pts ∧
      callAfter (demoCall 77 [1, 2, 3, 4, 5]) r ≠ demoCall 77 [1, 2, 3, 4, 5] :=
  ⟨_, rfl, rfl, rfl, by decide, by decide⟩

end Timestamp

/-! ## The chunks of an access unit -/

section ChunkCount
variable {σ : Type} (env : Env) (sink : Sink σ)

theorem ceil_one (d M : Nat) (h1 : 0 < d) (h2 : d ≤ M) : (d + M - 1) / M = 1 := by
  have hM : 0 < M := by omega
  have e : d + M - 1 = (d - 1) + M := by omega
  rw [e, Nat.add_div_right _ hM, Nat.div_eq_of_lt (by omega)]

theorem ceil_step (d M : Nat) (hM : 0 < M) (h2 : M < d) :
    (d + M - 1) / M = (d - M + M - 1) / M + 1 := by
  have e : d + M - 1 = (d - M + M - 1) + M := by omega
  rw [e, Nat.add_div_right _ hM]

theorem ceil_zero (M : Nat) (hM : 0 < M) : (0 + M - 1) / M = 0 := by
  apply Nat.div_eq_of_lt
  omega

/-- On a sink that fails no write the loop makes as many writes as there are
stretches of `MAX_PES_PACKET_SIZE` bytes, the last one maybe shorter, from
`Position` to the end, and write `k` carries stretch `k`. -/
theorem chunkLoop_chunks (fd : Int) (data : List Nat) (size : Int)
    (hMAX : 0 < env.MAX_PES_PACKET_SIZE) (hsize : size = (data.length : Int))
    (hsink : ∀ d f a b, 0 ≤ (sink.writev d f a b).1)
    (fuel : Nat) (s s2 : LoopState σ) (ws : List WriteRec) (h0 : 0 ≤ s.Position)
    (h : chunkLoop env sink fd data size fuel s = some (s2, ws)) :
    ws.length = ((size - s.Position).toNat + env.MAX_PES_PACKET_SIZE.toNat - 1) /
        env.MAX_PES_PACKET_SIZE.toNat ∧
      ∀ k w, ws[k]? = some w →
        w.iov1 = (data.drop (s.Position.toNat + k * env.MAX_PES_PACKET_SIZE.toNat)).take
          env.MAX_PES_PACKET_SIZE.toNat := by
  have hM : 0 < env.MAX_PES_PACKET_SIZE.toNat := by omega
  refine chunkLoop_induct env sink fd data size hMAX
    (fun s _ ws =>
      ws.length = ((size - s.Position).toNat + env.MAX_PES_PACKET_SIZE.toNat - 1) /
          env.MAX_PES_PACKET_SIZE.toNat ∧
        ∀ k w, ws[k]? = some w →
          w.iov1 = (data.drop (s.Position.toNat + k * env.MAX_PES_PACKET_SIZE.toNat)).take
            env.MAX_PES_PACKET_SIZE.toNat)
    ?_ ?_ ?_ fuel s s2 ws h0 h
  · intro s hs
    have e : (size - s.Position).toNat = 0 := by omega
    rw [e, ceil_zero _ hM]
    exact ⟨rfl, fun k w hk => by simp at hk⟩
  · intro s _ _ hb
    have := (chunkStep_break env sink fd data size s).1 hb
    have := hsink s.dev fd (chunkHeader env data size s) (chunkPayload env data size s.Position)
    omega
  · intro s s2 ws hp hlt hb ih
    rw [chunkStep_next env sink fd data size s hb] at ih
    dsimp only at ih
    obtain ⟨ih1, ih2⟩ := ih
    have hw : (chunkStep env sink fd data size s).1.iov1 =
        chunkPayload env data size s.Position := by rw [chunkStep_write]
    by_cases hc : size - s.Position ≤ env.MAX_PES_PACKET_SIZE
    · have hpl : packetLength env size s.Position = size - s.Position := by
        simp [packetLength, hc]
      rw [hpl] at ih1 ih2
      have e0 : (size - (s.Position + (size - s.Position))).toNat = 0 := by omega
      rw [e0, ceil_zero _ hM] at ih1
      have hnil : ws = [] := List.length_eq_zero.1 ih1
      subst hnil
      refine ⟨?_, ?_⟩
      · rw [ceil_one _ _ (by omega) (by omega)]
        rfl
      · intro k w hk
        cases k with
        | zero =>
          simp only [List.getElem?_cons_zero, Option.some.injEq] at hk
          rw [← hk, hw]
          unfold chunkPayload
          rw [hpl, Nat.zero_mul, Nat.add_zero]
          have hlen : (data.drop s.Position.toNat).length = (size - s.Position).toNat := by
            rw [List.length_drop]; omega
          rw [List.take_of_length_le (by omega), List.take_of_length_le (by omega)]
        | succ k => simp at hk
    · have hpl : packetLength env size s.Position = env.MAX_PES_PACKET_SIZE := by
        simp [packetLength, hc]
      rw [hpl] at ih1 ih2
      refine ⟨?_, ?_⟩
      · have e1 : (size - (s.Position + env.MAX_PES_PACKET_SIZE)).toNat =
            (size - s.Position).toNat - env.MAX_PES_PACKET_SIZE.toNat := by omega
        rw [List.length_cons, ih1, e1,
          ceil_step (size - s.Position).toNat _ hM (by omega)]
      · intro k w hk
        cases k with
        | zero =>
          simp only [List.getElem?_cons_zero, Option.some.injEq] at hk
          rw [← hk, hw]
          unfold chunkPayload
          rw [hpl, Nat.zero_mul, Nat.add_zero]
        | succ k =>
          simp only [List.getElem?_cons_succ] at hk
          rw [ih2 k w hk]
          have e2 : (s.Position + env.MAX_PES_PACKET_SIZE).toNat +
              k * env.MAX_PES_PACKET_SIZE.toNat =
              s.Position.toNat + (k + 1) * env.MAX_PES_PACKET_SIZE.toNat := by
            rw [Nat.succ_mul]; omega
          rw [e2]

end ChunkCount

section ChunkLayout
variable {σ : Type} (env : Env) (sink : Sink σ)

theorem below_ceil (k n M : Nat) (h : k + 1 < (n + M - 1) / M) :
    (k + 1) * M < n := by
  have hM : 0 < M := by
    rcases Nat.eq_zero_or_pos M with h0 | h0
    · rw [h0, Nat.div_zero] at h; omega
    · exact h0
  have h2 : (k + 2) * M ≤ n + M - 1 := (Nat.le_div_iff_mul_le hM).1 h
  have h3 : (k + 2) * M = (k + 1) * M + M := by
    rw [show k + 2 = (k + 1) + 1 from rfl, Nat.succ_mul]
  omega

/-- C19: A call on a valid handle with an access unit of `n > 0` bytes, on a
sink that fails no write, makes `ceil(n / MAX_PES_PACKET_SIZE)` chunk writes;
chunk `k` (from 0) carries the bytes from `k * MAX` up to `(k + 1) * MAX` or
the end of the unit, so every chunk but the last has `MAX` payload bytes; the
header of the first chunk is the header `InsertPesHeader` builds for it with
the frame start code right after it when the code is synthesized
(`FrameHeaderSeen` stays 0), and no later chunk header has it. -/
theorem C19_chunk_layout (fuel : Nat) (st : WriterState) (dev : σ)
    (call : WriterAVCallData) (hMAX : 0 < env.MAX_PES_PACKET_SIZE) (hfd : 0 ≤ call.fd)
    (hn : 0 < call.packet.size) (hwf : call.packet.WellFormed)
    (hsink : ∀ d f a b, 0 ≤ (sink.writev d f a b).1)
    (hfuel : call.packet.size.toNat ≤ fuel) :
    ∃ r, writeData env sink fuel st dev call = some r ∧
      (chunkWrites r).length =
        (call.packet.bytes.length + env.MAX_PES_PACKET_SIZE.toNat - 1) /
          env.MAX_PES_PACKET_SIZE.toNat ∧
      (∀ k w, (chunkWrites r)[k]? = some w →
        w.iov1 = (call.packet.bytes.drop (k * env.MAX_PES_PACKET_SIZE.toNat)).take
          env.MAX_PES_PACKET_SIZE.toNat) ∧
      (∀ k w, (chunkWrites r)[k]? = some w → k + 1 < (chunkWrites r).length →
        w.iov1.length = env.MAX_PES_PACKET_SIZE.toNat) ∧
      (∀ w, (chunkWrites r).head? = some w →
        w.iov0 = env.InsertPesHeader w.iov1.length env.VC1_VIDEO_PES_START_CODE call.Pts 0 ++
          (if frameHeaderCheck 1 st.FrameHeaderSeen call.packet.bytes call.packet.size = 0
            then Vc1FrameStartCode else [])) ∧
      (∀ w ∈ (chunkWrites r).tail,
        w.iov0 = env.InsertPesHeader w.iov1.length env.VC1_VIDEO_PES_START_CODE
          env.INVALID_PTS_VALUE 0) := by
  obtain ⟨r, hr, _, hh, ht⟩ := writeData_marker env sink fuel st dev call hMAX hwf hfuel
  refine ⟨r, hr, ?_⟩
  have hcount : (chunkWrites r).length =
        (call.packet.bytes.length + env.MAX_PES_PACKET_SIZE.toNat - 1) /
          env.MAX_PES_PACKET_SIZE.toNat ∧
      (∀ k w, (chunkWrites r)[k]? = some w →
        w.iov1 = (call.packet.bytes.drop (k * env.MAX_PES_PACKET_SIZE.toNat)).take
          env.MAX_PES_PACKET_SIZE.toNat) := by
    rcases writeData_chunks env sink hMAX fuel st dev call r hfd hr with
      ⟨data, s, hd, _, hl, _⟩ | ⟨he, _⟩
    · have hb := bytes_of_data hd
      have hsize : call.packet.size = (data.length : Int) := by rw [← hb]; exact hwf
      obtain ⟨p1, p2⟩ := chunkLoop_chunks env sink call.fd data call.packet.size hMAX hsize
        hsink fuel _ s (chunkWrites r) (by simp [loopInit]) hl
      rw [hb]
      refine ⟨?_, ?_⟩
      · rw [p1, hsize]
        simp [loopInit]
      · intro k w hk
        rw [p2 k w hk]
        simp [loopInit]
    · have hb := bytes_of_empty hwf he
      unfold AVPacket.WellFormed at hwf
      rw [hb] at hwf
      simp at hwf
      omega
  obtain ⟨c1, c2⟩ := hcount
  refine ⟨c1, c2, ?_, hh, ht⟩
  intro k w hk hlast
  rw [c1] at hlast
  have hlt := below_ceil _ _ _ hlast
  rw [c2 k w hk, List.length_take, List.length_drop]
  have h3 : (k + 1) * env.MAX_PES_PACKET_SIZE.toNat =
      k * env.MAX_PES_PACKET_SIZE.toNat + env.MAX_PES_PACKET_SIZE.toNat := Nat.succ_mul _ _
  omega

theorem C19_chunk_layout_witness :
    (0 < demoEnv2048.MAX_PES_PACKET_SIZE) ∧ (0 ≤ (demoCall 77 demoUnit5000).fd) ∧
      (0 < (demoCall 77 demoUnit5000).packet.size) ∧
      (demoCall 77 demoUnit5000).packet.WellFormed ∧
      (∀ (d : Unit) (f : Int) (a b : List Nat), 0 ≤ (fullSink.writev d f a b).1) ∧
      ((demoCall 77 demoUnit5000).packet.size.toNat ≤ 5000) ∧
      ∃ r, writeData demoEnv2048 fullSink 5000 initialState () (demoCall 77 demoUnit5000)
          = some r ∧
        (chunkWrites r).length =
          ((demoCall 77 demoUnit5000).packet.bytes.length +
              demoEnv2048.MAX_PES_PACKET_SIZE.toNat - 1) /
            demoEnv2048.MAX_PES_PACKET_SIZE.toNat ∧
        (∀ k w, (chunkWrites r)[k]? = some w →
          w.iov1 = ((demoCall 77 demoUnit5000).packet.bytes.drop
              (k * demoEnv2048.MAX_PES_PACKET_SIZE.toNat)).take
            demoEnv2048.MAX_PES_PACKET_SIZE.toNat) ∧
        (∀ k w, (chunkWrites r)[k]? = some w → k + 1 < (chunkWrites r).length →
          w.iov1.length = demoEnv2048.MAX_PES_PACKET_SIZE.toNat) ∧
        (∀ w, (chunkWrites r).head? = some w →
          w.iov0 = demoEnv2048.InsertPesHeader w.iov1.length
              demoEnv2048.VC1_VIDEO_PES_START_CODE (demoCall 77 demoUnit5000).Pts 0 ++
            (if frameHeaderCheck 1 initialState.FrameHeaderSeen
                (demoCall 77 demoUnit5000).packet.bytes
                (demoCall 77 demoUnit5000).packet.size = 0
              then Vc1FrameStartCode else [])) ∧
        (∀ w ∈ (chunkWrites r).tail,
          w.iov0 = demoEnv2048.InsertPesHeader w.iov1.length
            demoEnv2048.VC1_VIDEO_PES_START_CODE demoEnv2048.INVALID_PTS_VALUE 0) :=
  have h1 : 0 < demoEnv2048.MAX_PES_PACKET_SIZE := by decide
  have h2 : 0 ≤ (demoCall 77 demoUnit5000).fd := by decide
  have hs : (demoCall 77 demoUnit5000).packet.size = 5000 := by
    show ((List.replicate 5000 7).length : Int) = 5000
    rw [List.length_replicate]
    rfl
  have h3 : 0 < (demoCall 77 demoUnit5000).packet.size := by rw [hs]; decide
  have h4 : (demoCall 77 demoUnit5000).packet.WellFormed := rfl
  have h5 : ∀ (d : Unit) (f : Int) (a b : List Nat), 0 ≤ (fullSink.writev d f a b).1 :=
    fun _ _ a b => Int.ofNat_nonneg (a.length + b.length)
  have h6 : (demoCall 77 demoUnit5000).packet.size.toNat ≤ 5000 := by rw [hs]; decide
  ⟨h1, h2, h3, h4, h5, h6,
    C19_chunk_layout demoEnv2048 fullSink 5000 initialState () _ h1 h2 h3 h4 h5 h6⟩

end ChunkLayout

/-! ## The start-code decision -/

section StartCode
variable {σ : Type} (env : Env) (sink : Sink σ)

/-- A call on a valid handle with a non-empty packet writes at least one
chunk. -/
theorem writeData_some_chunk (fuel : Nat) (st : WriterState) (dev : σ)
    (call : WriterAVCallData) (r : Outcome σ) (hMAX : 0 < env.MAX_PES_PACKET_SIZE)
    (hfd : 0 ≤ call.fd) (hn : 0 < call.packet.size) (hwf : call.packet.WellFormed)
    (h : writeData env sink fuel st dev call = some r) : chunkWrites r ≠ [] := by
  rcases writeData_chunks env sink hMAX fuel st dev call r hfd h with
    ⟨data, s, _, hs, hl, _⟩ | ⟨he, _⟩
  · rcases chunkLoop_first env sink call.fd data call.packet.size fuel _ s (chunkWrites r)
      (by simpa [loopInit] using hs) hl with ⟨_, _, e⟩ | ⟨_, _, _, _, e⟩
    · rw [e]; exact List.cons_ne_nil _ _
    · rw [e]; exact List.cons_ne_nil _ _
  · have hb := bytes_of_empty hwf he
    unfold AVPacket.WellFormed at hwf
    rw [hb] at hwf
    simp at hwf
    omega

/-- Once `FrameHeaderSeen` is 1 it is 1 after every call of a feed. -/
theorem feed_flag_one (fuel : Nat) (hMAX : 0 < env.MAX_PES_PACKET_SIZE)
    (calls : List WriterAVCallData) (st : WriterState) (dev : σ)
    (hseen : st.FrameHeaderSeen = 1)
    (hok : ∀ c ∈ calls, c.packet.WellFormed ∧ c.packet.size.toNat ≤ fuel) :
    ∃ rs, feed env sink fuel st dev calls = some rs ∧
      ∀ q ∈ rs, q.state.FrameHeaderSeen = 1 := by
  obtain ⟨rs, hrs, hall⟩ := feed_forall env sink fuel (fun st => st.FrameHeaderSeen = 1)
    (fun c => c.packet.WellFormed ∧ c.packet.size.toNat ≤ fuel)
    (fun _ q => q.state.FrameHeaderSeen = 1)
    (fun st dev c hinv hc => by
      obtain ⟨r, hr, hf, _⟩ := writeData_marker env sink fuel st dev c hMAX hc.1 hc.2
      have hf2 : r.state.FrameHeaderSeen = 1 := by
        rw [hf, hinv]
        split
        · exact frameHeaderCheck_seen _ _ _ _ (by decide)
        · rfl
      exact ⟨r, hr, hf2, hf2⟩)
    calls st dev hseen hok
  exact ⟨rs, hrs, forall₂_right (fun q => q.state.FrameHeaderSeen = 1) calls rs hall⟩

/-- C20: The start-code decision of a call on a valid handle with a non-empty
access unit, from a state whose flag is 0 or 1. The call writes at least one
chunk. The frame start code is put after the header of the first chunk when
`FrameHeaderSeen` is 0 before the call and the unit does not begin with
00 00 01 0D (a unit of fewer than 4 bytes does not), and in every other case
the header of the first chunk is the plain header; no later chunk has it.
`FrameHeaderSeen` is 1 after the call exactly when it was 1 before or the unit
has at least 4 bytes and begins with the start code, and once it is 1 it is 1
after every later call of the feed. -/
theorem C20_start_code_decision (fuel : Nat) (st : WriterState) (dev : σ)
    (call : WriterAVCallData) (cs : List WriterAVCallData)
    (hMAX : 0 < env.MAX_PES_PACKET_SIZE) (hfd : 0 ≤ call.fd) (hn : 0 < call.packet.size)
    (hwf : call.packet.WellFormed) (hfuel : call.packet.size.toNat ≤ fuel)
    (hflag : st.FrameHeaderSeen = 0 ∨ st.FrameHeaderSeen = 1)
    (hcs : ∀ x ∈ cs, x.packet.WellFormed ∧ x.packet.size.toNat ≤ fuel) :
    ∃ r rs, writeData env sink fuel st dev call = some r ∧
      feed env sink fuel r.state r.dev cs = some rs ∧
      chunkWrites r ≠ [] ∧
      (∀ w, (chunkWrites r).head? = some w →
        ((st.FrameHeaderSeen = 0 ∧
            ¬ (3 < call.packet.size ∧ call.packet.bytes.take 4 = [0x00, 0x00, 0x01, 0x0d])) →
          w.iov0 = env.InsertPesHeader w.iov1.length env.VC1_VIDEO_PES_START_CODE call.Pts 0
            ++ [0x00, 0x00, 0x01, 0x0d]) ∧
        (¬ (st.FrameHeaderSeen = 0 ∧
            ¬ (3 < call.packet.size ∧ call.packet.bytes.take 4 = [0x00, 0x00, 0x01, 0x0d])) →
          w.iov0 = env.InsertPesHeader w.iov1.length env.VC1_VIDEO_PES_START_CODE
            call.Pts 0)) ∧
      (∀ w ∈ (chunkWrites r).tail,
        w.iov0 = env.InsertPesHeader w.iov1.length env.VC1_VIDEO_PES_START_CODE
          env.INVALID_PTS_VALUE 0) ∧
      (r.state.FrameHeaderSeen = 1 ↔
        (st.FrameHeaderSeen = 1 ∨
          (3 < call.packet.size ∧ call.packet.bytes.take 4 = [0x00, 0x00, 0x01, 0x0d]))) ∧
      (r.state.FrameHeaderSeen = 0 ∨ r.state.FrameHeaderSeen = 1) ∧
      (r.state.FrameHeaderSeen = 1 → ∀ q ∈ rs, q.state.FrameHeaderSeen = 1) := by
  obtain ⟨r, hr, hf, hh, ht⟩ := writeData_marker env sink fuel st dev call hMAX hwf hfuel
  rw [if_pos ⟨hfd, hn⟩] at hf
  obtain ⟨rs, hrs, _⟩ := feed_forall env sink fuel (fun _ => True)
    (fun x => x.packet.size.toNat ≤ fuel) (fun _ _ => True)
    (fun st dev x _ hx => by
      obtain ⟨q, hq⟩ := writeData_terminates env sink hMAX fuel st dev x hx
      exact ⟨q, hq, trivial, trivial⟩)
    cs r.state r.dev trivial (fun x hx => (hcs x hx).2)
  have hmark : Vc1FrameStartCode = [0x00, 0x00, 0x01, 0x0d] := rfl
  rw [← hmark]
  have hcheck : frameHeaderCheck 1 st.FrameHeaderSeen call.packet.bytes call.packet.size =
      (if st.FrameHeaderSeen = 0 ∧
          ¬ (3 < call.packet.size ∧ call.packet.bytes.take 4 = Vc1FrameStartCode)
        then 0 else 1) := by
    rcases hflag with h0 | h1
    · rw [h0]
      by_cases hm : 3 < call.packet.size ∧ call.packet.bytes.take 4 = Vc1FrameStartCode
      · rw [frameHeaderCheck_found _ _ hm.1 hm.2]
        simp [hm]
      · rw [frameHeaderCheck_absent _ _ hm]
        simp [hm]
    · rw [frameHeaderCheck_seen _ _ _ _ (by rw [h1]; decide), h1]
      simp
  rw [hcheck] at hf hh
  refine ⟨r, rs, hr, hrs, writeData_some_chunk env sink fuel st dev call r hMAX hfd hn hwf hr,
    ?_, ht, ?_, ?_, ?_⟩
  · intro w hw
    have := hh w hw
    refine ⟨fun hc => ?_, fun hc => ?_⟩
    · simpa [hc] using this
    · rw [if_neg hc] at this
      simpa using this
  · rw [hf]
    rcases hflag with h0 | h1
    · rw [h0]
      by_cases hm : 3 < call.packet.size ∧ call.packet.bytes.take 4 = Vc1FrameStartCode
      · simp [hm]
      · simp [hm]
    · simp [h1]
  · rw [hf]
    split
    · exact Or.inl rfl
    · exact Or.inr rfl
  · intro h1
    obtain ⟨rs2, hrs2, hall⟩ := feed_flag_one env sink fuel hMAX cs r.state r.dev h1 hcs
    rw [hrs] at hrs2
    cases hrs2
    exact hall

theorem C20_start_code_decision_witness :
    (0 < demoEnv.MAX_PES_PACKET_SIZE) ∧ (0 ≤ (demoCall 10 [0, 0, 1, 13, 7, 7]).fd) ∧
      (0 < (demoCall 10 [0, 0, 1, 13, 7, 7]).packet.size) ∧
      (demoCall 10 [0, 0, 1, 13, 7, 7]).packet.WellFormed ∧
      ((demoCall 10 [0, 0, 1, 13, 7, 7]).packet.size.toNat ≤ 6) ∧
      (initialState.FrameHeaderSeen = 0 ∨ initialState.FrameHeaderSeen = 1) ∧
      (∀ x ∈ [demoCall 20 [1, 2, 3, 4, 5]], x.packet.WellFormed ∧ x.packet.size.toNat ≤ 6) ∧
      ∃ r rs, writeData demoEnv fullSink 6 initialState () (demoCall 10 [0, 0, 1, 13, 7, 7])
          = some r ∧
        feed demoEnv fullSink 6 r.state r.dev [demoCall 20 [1, 2, 3, 4, 5]] = some rs ∧
        chunkWrites r ≠ [] ∧
        (∀ w, (chunkWrites r).head? = some w →
          ((initialState.FrameHeaderSeen = 0 ∧
              ¬ (3 < (demoCall 10 [0, 0, 1, 13, 7, 7]).packet.size ∧
                (demoCall 10 [0, 0, 1, 13, 7, 7]).packet.bytes.take 4
                  = [0x00, 0x00, 0x01, 0x0d])) →
            w.iov0 = demoEnv.InsertPesHeader w.iov1.length demoEnv.VC1_VIDEO_PES_START_CODE
              (demoCall 10 [0, 0, 1, 13, 7, 7]).Pts 0 ++ [0x00, 0x00, 0x01, 0x0d]) ∧
          (¬ (initialState.FrameHeaderSeen = 0 ∧
              ¬ (3 < (demoCall 10 [0, 0, 1, 13, 7, 7]).packet.size ∧
                (demoCall 10 [0, 0, 1, 13, 7, 7]).packet.bytes.take 4
                  = [0x00, 0x00, 0x01, 0x0d])) →
            w.iov0 = demoEnv.InsertPesHeader w.iov1.length demoEnv.VC1_VIDEO_PES_START_CODE
              (demoCall 10 [0, 0, 1, 13, 7, 7]).Pts 0)) ∧
        (∀ w ∈ (chunkWrites r).tail,
          w.iov0 = demoEnv.InsertPesHeader w.iov1.length demoEnv.VC1_VIDEO_PES_START_CODE
            demoEnv.INVALID_PTS_VALUE 0) ∧
        (r.state.FrameHeaderSeen = 1 ↔
          (initialState.FrameHeaderSeen = 1 ∨
            (3 < (demoCall 10 [0, 0, 1, 13, 7, 7]).packet.size ∧
              (demoCall 10 [0, 0, 1, 13, 7, 7]).packet.bytes.take 4
                = [0x00, 0x00, 0x01, 0x0d]))) ∧
        (r.state.FrameHeaderSeen = 0 ∨ r.state.FrameHeaderSeen = 1) ∧
        (r.state.FrameHeaderSeen = 1 → ∀ q ∈ rs, q.state.FrameHeaderSeen = 1) :=
  have h1 : 0 < demoEnv.MAX_PES_PACKET_SIZE := by decide
  have h2 : 0 ≤ (demoCall 10 [0, 0, 1, 13, 7, 7]).fd := by decide
  have h3 : 0 < (demoCall 10 [0, 0, 1, 13, 7, 7]).packet.size := by decide
  have h4 : (demoCall 10 [0, 0, 1, 13, 7, 7]).packet.WellFormed := by decide
  have h5 : (demoCall 10 [0, 0, 1, 13, 7, 7]).packet.size.toNat ≤ 6 := by decide
  have h6 : initialState.FrameHeaderSeen = 0 ∨ initialState.FrameHeaderSeen = 1 :=
    Or.inl rfl
  have h7 : ∀ x ∈ [demoCall 20 [1, 2, 3, 4, 5]],
      x.packet.WellFormed ∧ x.packet.size.toNat ≤ 6 := by decide
  ⟨h1, h2, h3, h4, h5, h6, h7,
    C20_start_code_decision demoEnv fullSink 6 initialState () _ _ h1 h2 h3 h4 h5 h6 h7⟩

end StartCode

/-! ## The frame interval in double arithmetic -/

section DoubleArithmetic

theorem log2Fuel_spec : ∀ (fuel n : Nat), n < 2 ^ fuel → 1 ≤ n →
    2 ^ log2Fuel fuel n ≤ n ∧ n < 2 ^ (log2Fuel fuel n + 1) := by
  intro fuel
  induction fuel with
  | zero =>
    intro n h1 h2
    simp at h1
    omega
  | succ k ih =>
    intro n h1 h2
    unfold log2Fuel
    split
    · rename_i h
      have : n = 1 := by omega
      subst this
      simp
    · rename_i h
      have hlt : n / 2 < 2 ^ k := by
        rw [Nat.pow_succ] at h1
        omega
      obtain ⟨a, b⟩ := ih (n / 2) hlt (by omega)
      rw [Nat.pow_succ] at b ⊢
      rw [Nat.pow_succ]
      omega

theorem ilog2_spec (n : Nat) (h : 1 ≤ n) : 2 ^ ilog2 n ≤ n ∧ n < 2 ^ (ilog2 n + 1) :=
  log2Fuel_spec n n (Nat.lt_two_pow n) h

theorem roundHalfEven_spec (n d : Nat) (hd : 0 < d) :
    2 * (roundHalfEven n d * d) ≤ 2 * n + d ∧ 2 * n ≤ 2 * (roundHalfEven n d * d) + d := by
  have h1 : d * (n / d) + n % d = n := Nat.div_add_mod n d
  have h0 : n % d < d := Nat.mod_lt n hd
  unfold roundHalfEven
  generalize n / d = k at h1 ⊢
  generalize n % d = r at h0 h1 ⊢
  have e1 : (k + 1) * d = d * k + d := by ring
  have e2 : k * d = d * k := by ring
  by_cases c1 : 2 * r < d
  · rw [if_pos c1, e2]; omega
  · rw [if_neg c1]
    by_cases c2 : d < 2 * r
    · rw [if_pos c2, e1]; omega
    · rw [if_neg c2]
      by_cases c3 : k % 2 = 0
      · rw [if_pos c3, e2]; omega
      · rw [if_neg c3, e1]; omega

/-- The mantissa of `doubleDiv` has at least 53 bits: the scaled quotient it
rounds is at least `2 ^ 52`. -/
theorem doubleDiv_scale (p q : Nat) (hp : 1 ≤ p) (hq : 1 ≤ q) :
    2 ^ 52 * ((if q * 2 ^ ilog2 p * 2 ^ 53 ≤ p * 2 ^ (53 + ilog2 q) then 2 else 1) *
        (q * 2 ^ ilog2 p)) ≤ p * 2 ^ (53 + ilog2 q) := by
  obtain ⟨a1, _⟩ := ilog2_spec p hp
  obtain ⟨_, b2⟩ := ilog2_spec q hq
  split
  · rename_i h
    calc 2 ^ 52 * (2 * (q * 2 ^ ilog2 p)) = q * 2 ^ ilog2 p * 2 ^ 53 := by ring
      _ ≤ _ := h
  · have e1 : q * 2 ^ ilog2 p ≤ 2 ^ (ilog2 q + 1) * p :=
      Nat.mul_le_mul (Nat.le_of_lt b2) a1
    calc 2 ^ 52 * (1 * (q * 2 ^ ilog2 p)) = 2 ^ 52 * (q * 2 ^ ilog2 p) := by ring
      _ ≤ 2 ^ 52 * (2 ^ (ilog2 q + 1) * p) := Nat.mul_le_mul_left _ e1
      _ = p * 2 ^ (53 + ilog2 q) := by
        rw [Nat.pow_add, Nat.pow_add]
        ring

/-- The double nearest to `p / q` is `p / q` times a factor within `2 ^ -53`
of 1. -/
theorem doubleDiv_spec (p q : Nat) (hp : 1 ≤ p) (hq : 1 ≤ q) :
    0 < (doubleDiv p q).2 ∧
    ∃ r : ℚ, |r - 1| ≤ 1 / 2 ^ 53 ∧
      ((doubleDiv p q).1 : ℚ) / ((doubleDiv p q).2 : ℚ) = (p : ℚ) / (q : ℚ) * r := by
  have hscale := doubleDiv_scale p q hp hq
  unfold doubleDiv
  dsimp only
  generalize hs : (if q * 2 ^ ilog2 p * 2 ^ 53 ≤ p * 2 ^ (53 + ilog2 q) then 2 else 1) = s
    at hscale ⊢
  have hs0 : 0 < s := by
    rw [← hs]; split <;> decide
  have hd : 0 < s * (q * 2 ^ ilog2 p) := by positivity
  obtain ⟨r1, r2⟩ := roundHalfEven_spec (p * 2 ^ (53 + ilog2 q)) (s * (q * 2 ^ ilog2 p)) hd
  generalize roundHalfEven (p * 2 ^ (53 + ilog2 q)) (s * (q * 2 ^ ilog2 p)) = m at r1 r2 ⊢
  refine ⟨by positivity, ((m : ℚ) * (s * (q * 2 ^ ilog2 p))) / (p * 2 ^ (53 + ilog2 q)), ?_, ?_⟩
  · have hn0 : (0 : ℚ) < (p : ℚ) * 2 ^ (53 + ilog2 q) := by positivity
    have c1 : (2 : ℚ) * (m * (s * (q * 2 ^ ilog2 p))) ≤
        2 * (p * 2 ^ (53 + ilog2 q)) + s * (q * 2 ^ ilog2 p) := by exact_mod_cast r1
    have c2 : (2 : ℚ) * (p * 2 ^ (53 + ilog2 q)) ≤
        2 * (m * (s * (q * 2 ^ ilog2 p))) + s * (q * 2 ^ ilog2 p) := by exact_mod_cast r2
    have c3 : (2 : ℚ) ^ 52 * (s * (q * 2 ^ ilog2 p)) ≤ p * 2 ^ (53 + ilog2 q) := by
      exact_mod_cast hscale
    rw [abs_le]
    constructor
    · rw [le_sub_iff_add_le, le_div_iff₀ hn0]
      nlinarith
    · rw [sub_le_iff_le_add, div_le_iff₀ hn0]
      nlinarith
  · have hp0 : (p : ℚ) ≠ 0 := by positivity
    have hq0 : (q : ℚ) ≠ 0 := by positivity
    push_cast
    field_simp
    ring

/-- The mantissa `doubleDiv` rounds to has 53 bits: the scaled quotient lies
in `[2 ^ 52, 2 ^ 53)`, so its nearest integer lies in `[2 ^ 52, 2 ^ 53]`. -/
theorem doubleDiv_mantissa (p q : Nat) (hp : 1 ≤ p) (hq : 1 ≤ q) :
    ∃ m k, (doubleDiv p q).1 = m * 2 ^ k ∧ (doubleDiv p q).2 = 2 ^ (53 + ilog2 q) ∧
      2 ^ 52 ≤ m ∧ m ≤ 2 ^ 53 := by
  have hscale := doubleDiv_scale p q hp hq
  obtain ⟨_, a2⟩ := ilog2_spec p hp
  obtain ⟨b1, _⟩ := ilog2_spec q hq
  have hupper : p * 2 ^ (53 + ilog2 q) <
      2 ^ 53 * ((if q * 2 ^ ilog2 p * 2 ^ 53 ≤ p * 2 ^ (53 + ilog2 q) then 2 else 1) *
        (q * 2 ^ ilog2 p)) := by
    split
    · have e1 : p * 2 ^ ilog2 q < 2 ^ (ilog2 p + 1) * q :=
        Nat.mul_lt_mul_of_lt_of_le a2 b1 (by positivity)
      calc p * 2 ^ (53 + ilog2 q) = 2 ^ 53 * (p * 2 ^ ilog2 q) := by
            rw [Nat.pow_add]; ring
        _ < 2 ^ 53 * (2 ^ (ilog2 p + 1) * q) :=
            Nat.mul_lt_mul_of_pos_left e1 (by positivity)
        _ = 2 ^ 53 * (2 * (q * 2 ^ ilog2 p)) := by
            rw [Nat.pow_succ]; ring
    · rename_i h
      have h2 := Nat.lt_of_not_le h
      calc p * 2 ^ (53 + ilog2 q) < q * 2 ^ ilog2 p * 2 ^ 53 := h2
        _ = 2 ^ 53 * (1 * (q * 2 ^ ilog2 p)) := by ring
  unfold doubleDiv
  dsimp only
  generalize hs : (if q * 2 ^ ilog2 p * 2 ^ 53 ≤ p * 2 ^ (53 + ilog2 q) then 2 else 1) = s
    at hscale hupper ⊢
  have hs12 : s = 1 ∨ s = 2 := by
    rw [← hs]; split
    · exact Or.inr rfl
    · exact Or.inl rfl
  have hd : 0 < s * (q * 2 ^ ilog2 p) := by
    rcases hs12 with h | h <;> rw [h] <;> positivity
  obtain ⟨r1, r2⟩ := roundHalfEven_spec (p * 2 ^ (53 + ilog2 q)) (s * (q * 2 ^ ilog2 p)) hd
  generalize roundHalfEven (p * 2 ^ (53 + ilog2 q)) (s * (q * 2 ^ ilog2 p)) = m at r1 r2 ⊢
  generalize p * 2 ^ (53 + ilog2 q) = n0 at hscale hupper r1 r2
  generalize s * (q * 2 ^ ilog2 p) = d at hscale hupper r1 r2 hd
  have lo : 2 ^ 52 ≤ m := by
    have h1 : 2 ^ 53 * d ≤ (2 * m + 1) * d := by
      calc 2 ^ 53 * d = 2 * (2 ^ 52 * d) := by ring
        _ ≤ 2 * n0 := Nat.mul_le_mul_left 2 hscale
        _ ≤ 2 * (m * d) + d := r2
        _ = (2 * m + 1) * d := by ring
    have h2 := Nat.le_of_mul_le_mul_right h1 hd
    omega
  have hi : m ≤ 2 ^ 53 := by
    have h1 : 2 * m * d < (2 ^ 54 + 1) * d := by
      calc 2 * m * d = 2 * (m * d) := by ring
        _ ≤ 2 * n0 + d := r1
        _ < 2 * (2 ^ 53 * d) + d := by omega
        _ = (2 ^ 54 + 1) * d := by ring
    have h2 := Nat.lt_of_mul_lt_mul_right h1
    omega
  rcases hs12 with h | h
  · exact ⟨m, ilog2 p, by rw [h, Nat.mul_one], rfl, lo, hi⟩
  · exact ⟨m, ilog2 p + 1, by rw [h, Nat.pow_succ]; ring, rfl, lo, hi⟩

/-- Two quotients whose ratio is that of two factors within `2 ^ -53` of 1 are
less than 1 apart below `2 ^ 32`. -/
theorem close_of_factors (x y r1 r2 : ℚ) (hx0 : 0 ≤ x) (hx : x < 2 ^ 32)
    (h1 : |r1 - 1| ≤ 1 / 2 ^ 53) (h2 : |r2 - 1| ≤ 1 / 2 ^ 53) (hy : y * r1 = x * r2) :
    y < x + 1 ∧ x < y + 1 := by
  rw [abs_le] at h1 h2
  obtain ⟨h1a, h1b⟩ := h1
  obtain ⟨h2a, h2b⟩ := h2
  have hr1 : (0 : ℚ) < r1 := by
    have : (0 : ℚ) < 1 - 1 / 2 ^ 53 := by norm_num
    linarith
  constructor
  · have : y * r1 < (x + 1) * r1 := by
      rw [hy]
      nlinarith
    exact lt_of_mul_lt_mul_right this (le_of_lt hr1)
  · have : x * r1 < (y + 1) * r1 := by
      have e : (y + 1) * r1 = x * r2 + r1 := by rw [add_mul, hy, one_mul]
      rw [e]
      nlinarith
    exact lt_of_mul_lt_mul_right this (le_of_lt hr1)

/-- Line 150 in double arithmetic gives the exact floor of `10^7 * den / num`
or a neighbour of it. -/
theorem crazyFramerate_near (P Q : Nat) (hP : 1 ≤ P) (hQ : 1 ≤ Q)
    (hfit : 10000000 * Q / P < 4294967295) :
    crazyFramerate { num := (P : Int), den := (Q : Int) } ≤ 10000000 * Q / P + 1 ∧
      10000000 * Q / P ≤ crazyFramerate { num := (P : Int), den := (Q : Int) } + 1 := by
  unfold crazyFramerate av_q2d
  simp only [Int.toNat_ofNat]
  obtain ⟨hb1, r1, hr1, e1⟩ := doubleDiv_spec P Q hP hQ
  generalize doubleDiv P Q = d1 at hb1 e1 ⊢
  obtain ⟨a1, b1⟩ := d1
  dsimp only at hb1 e1 ⊢
  have hr1' := abs_le.1 hr1
  have hr1pos : (0 : ℚ) < r1 := by
    have : (0 : ℚ) < 1 - 1 / 2 ^ 53 := by norm_num
    linarith [hr1'.1]
  have hPQ : (0 : ℚ) < (P : ℚ) / (Q : ℚ) := by positivity
  have hb1q : (0 : ℚ) < (b1 : ℚ) := by exact_mod_cast hb1
  have ha1 : 1 ≤ a1 := by
    rcases Nat.eq_zero_or_pos a1 with h | h
    · rw [h] at e1
      simp only [Nat.cast_zero, zero_div] at e1
      have : (0 : ℚ) < (P : ℚ) / (Q : ℚ) * r1 := mul_pos hPQ hr1pos
      linarith
    · exact h
  obtain ⟨hb2, r2, hr2, e2⟩ := doubleDiv_spec (10000000 * b1) a1
    (Nat.mul_pos (by decide) hb1) ha1
  generalize doubleDiv (10000000 * b1) a1 = d2 at hb2 e2 ⊢
  obtain ⟨a2, b2⟩ := d2
  dsimp only at hb2 e2 ⊢
  have hP0 : (P : ℚ) ≠ 0 := by positivity
  have hQ0 : (Q : ℚ) ≠ 0 := by positivity
  have ha10 : (a1 : ℚ) ≠ 0 := by positivity
  have hb10 : (b1 : ℚ) ≠ 0 := ne_of_gt hb1q
  have hy : ((a2 : ℚ) / (b2 : ℚ)) * r1 = ((10000000 * Q : ℕ) : ℚ) / (P : ℚ) * r2 := by
    rw [e2]
    have e3 : (a1 : ℚ) = (P : ℚ) / (Q : ℚ) * r1 * b1 := by
      rw [← e1]; field_simp
    push_cast
    have hr10 : r1 ≠ 0 := ne_of_gt hr1pos
    rw [e3]
    field_simp
    ring
  have hx0 : (0 : ℚ) ≤ ((10000000 * Q : ℕ) : ℚ) / (P : ℚ) := by positivity
  have hfl : ⌊((10000000 * Q : ℕ) : ℚ) / (P : ℚ)⌋₊ = 10000000 * Q / P :=
    Nat.floor_div_eq_div _ _
  have hfl2 : ⌊(a2 : ℚ) / (b2 : ℚ)⌋₊ = a2 / b2 := Nat.floor_div_eq_div _ _
  have hx : ((10000000 * Q : ℕ) : ℚ) / (P : ℚ) < 2 ^ 32 := by
    have := Nat.lt_floor_add_one (((10000000 * Q : ℕ) : ℚ) / (P : ℚ))
    rw [hfl] at this
    have h3 : ((10000000 * Q / P : ℕ) : ℚ) + 1 ≤ 2 ^ 32 := by
      have : 10000000 * Q / P + 1 ≤ 2 ^ 32 := by omega
      exact_mod_cast this
    linarith
  obtain ⟨c1, c2⟩ := close_of_factors _ _ r1 r2 hx0 hx hr1 hr2 hy
  have hy0 : (0 : ℚ) ≤ (a2 : ℚ) / (b2 : ℚ) := by positivity
  have f1 := Nat.floor_le hy0
  have f2 := Nat.lt_floor_add_one ((a2 : ℚ) / (b2 : ℚ))
  have g1 := Nat.floor_le hx0
  have g2 := Nat.lt_floor_add_one (((10000000 * Q : ℕ) : ℚ) / (P : ℚ))
  rw [hfl2] at f1 f2
  rw [hfl] at g1 g2
  constructor
  · have : ((a2 / b2 : ℕ) : ℚ) < ((10000000 * Q / P : ℕ) : ℚ) + 2 := by linarith
    have : a2 / b2 < 10000000 * Q / P + 2 := by exact_mod_cast this
    omega
  · have : ((10000000 * Q / P : ℕ) : ℚ) < ((a2 / b2 : ℕ) : ℚ) + 2 := by linarith
    have : 10000000 * Q / P < a2 / b2 + 2 := by exact_mod_cast this
    omega


end DoubleArithmetic

section FrameInterval
variable {σ : Type} (env : Env) (sink : Sink σ)

theorem PesPayload_interval (height width : Int) (crazyFramerate : Nat) :
    (PesPayload height width crazyFramerate).drop 36 = le32 crazyFramerate := by
  rfl

/-- The frame interval of `ieeeEnv` is the one line 150 computes. -/
theorem ieeeEnv_crazyFramerate (x : AVRational) :
    ieeeEnv.crazyFramerate x.num x.den = crazyFramerate x := rfl

theorem crazyFramerate_ntsc_film : crazyFramerate { num := 24000, den := 1001 } = 417083 := by
  rfl

theorem crazyFramerate_film : crazyFramerate { num := 24, den := 1 } = 416666 := by
  rfl

theorem crazyFramerate_25_17 : crazyFramerate { num := 25, den := 17 } = 6799999 := by
  rfl

/-- The first write of the first call of an epoch on a valid handle is the
metadata packet, with the frame interval of the environment in the four bytes
at offset 36 of its payload. -/
theorem writeData_interval (fuel : Nat) (st : WriterState) (dev : σ)
    (call : WriterAVCallData) (hMAX : 0 < env.MAX_PES_PACKET_SIZE) (hfd : 0 ≤ call.fd)
    (hdue : st.initialHeader ≠ 0) (hfuel : call.packet.size.toNat ≤ fuel) :
    ∃ r w rest, writeData env sink fuel st dev call = some r ∧ r.writes = w :: rest ∧
      w.site = WriteSite.metadata ∧
      w.iov1.drop 36 = le32 (env.crazyFramerate call.stream.r_frame_rate.num
        call.stream.r_frame_rate.den) := by
  obtain ⟨r, hr⟩ := writeData_terminates env sink hMAX fuel st dev call hfuel
  obtain ⟨c1, c2, e⟩ := emitInitialHeader_writes env sink st dev call hdue
  have hw := writeData_writes env sink fuel st dev call r hMAX hfd hr
  rw [e] at hw
  exact ⟨r, _, _, hr, hw, rfl, PesPayload_interval _ _ _⟩

/-- C16, as the code has it: on the first call of an epoch on a valid handle,
for a positive frame rate `num / den` with `floor(10^7 * den / num)` below
`2^32 - 1`, the four bytes at offset 36 of the metadata payload hold the frame
interval of line 150 in double arithmetic: the double nearest to
`10000000 / q`, for `q` the double nearest to `num / den`, with its fraction
dropped (truncated, not rounded to nearest). That value fits in 32 bits and is
`floor(10^7 * den / num)` or a neighbour of it: 417083 for 24000/1001, 416666
for 24/1 (the exact quotient is 416666.67), and 6799999 for 25/17, where the
exact quotient is 6800000. -/
theorem C16_frame_interval (fuel : Nat) (st : WriterState) (dev : σ)
    (call : WriterAVCallData) (hMAX : 0 < env.MAX_PES_PACKET_SIZE) (hfd : 0 ≤ call.fd)
    (hdue : st.initialHeader ≠ 0) (hfuel : call.packet.size.toNat ≤ fuel)
    (henv : env.crazyFramerate call.stream.r_frame_rate.num call.stream.r_frame_rate.den =
      crazyFramerate call.stream.r_frame_rate)
    (hnum : 0 < call.stream.r_frame_rate.num) (hden : 0 < call.stream.r_frame_rate.den)
    (hfit : 10000000 * call.stream.r_frame_rate.den / call.stream.r_frame_rate.num
      < 4294967295) :
    ∃ r w rest, writeData env sink fuel st dev call = some r ∧ r.writes = w :: rest ∧
      w.site = WriteSite.metadata ∧
      w.iov1.drop 36 = le32 (crazyFramerate call.stream.r_frame_rate) ∧
      (crazyFramerate call.stream.r_frame_rate *
          (doubleDiv (10000000 * (av_q2d call.stream.r_frame_rate).2)
            (av_q2d call.stream.r_frame_rate).1).2 ≤
        (doubleDiv (10000000 * (av_q2d call.stream.r_frame_rate).2)
          (av_q2d call.stream.r_frame_rate).1).1) ∧
      ((doubleDiv (10000000 * (av_q2d call.stream.r_frame_rate).2)
          (av_q2d call.stream.r_frame_rate).1).1 <
        (crazyFramerate call.stream.r_frame_rate + 1) *
          (doubleDiv (10000000 * (av_q2d call.stream.r_frame_rate).2)
            (av_q2d call.stream.r_frame_rate).1).2) ∧
      ((crazyFramerate call.stream.r_frame_rate : Int) ≤
        10000000 * call.stream.r_frame_rate.den / call.stream.r_frame_rate.num + 1) ∧
      (10000000 * call.stream.r_frame_rate.den / call.stream.r_frame_rate.num ≤
        (crazyFramerate call.stream.r_frame_rate : Int) + 1) ∧
      crazyFramerate call.stream.r_frame_rate < 4294967296 ∧
      crazyFramerate { num := 24000, den := 1001 } = 417083 ∧
      crazyFramerate { num := 24, den := 1 } = 416666 ∧
      crazyFramerate { num := 25, den := 17 } = 6799999 := by
  obtain ⟨r, w, rest, hr, hw, hsite, hbytes⟩ :=
    writeData_interval env sink fuel st dev call hMAX hfd hdue hfuel
  rw [henv] at hbytes
  obtain ⟨P, hP⟩ := Int.eq_ofNat_of_zero_le (le_of_lt hnum)
  obtain ⟨Q, hQ⟩ := Int.eq_ofNat_of_zero_le (le_of_lt hden)
  have hrate : call.stream.r_frame_rate = { num := (P : Int), den := (Q : Int) } := by
    cases hc : call.stream.r_frame_rate
    rw [hc] at hP hQ
    simp only at hP hQ
    rw [hP, hQ]
  have hP1 : 1 ≤ P := by rw [hP] at hnum; exact_mod_cast hnum
  have hQ1 : 1 ≤ Q := by rw [hQ] at hden; exact_mod_cast hden
  have hdiv : 10000000 * call.stream.r_frame_rate.den / call.stream.r_frame_rate.num =
      ((10000000 * Q / P : Nat) : Int) := by
    rw [hP, hQ]
    norm_cast
  rw [hdiv] at hfit ⊢
  have hfitN : 10000000 * Q / P < 4294967295 := by exact_mod_cast hfit
  obtain ⟨n1, n2⟩ := crazyFramerate_near P Q hP1 hQ1 hfitN
  rw [← hrate] at n1 n2
  have hb2 : 0 < (doubleDiv (10000000 * (av_q2d call.stream.r_frame_rate).2)
      (av_q2d call.stream.r_frame_rate).1).2 := by
    unfold doubleDiv
    dsimp only
    positivity
  refine ⟨r, w, rest, hr, hw, hsite, hbytes, ?_, ?_, ?_, ?_, ?_, crazyFramerate_ntsc_film,
    crazyFramerate_film, crazyFramerate_25_17⟩
  · exact Nat.div_mul_le_self _ _
  · have := Nat.lt_mul_div_succ
      (doubleDiv (10000000 * (av_q2d call.stream.r_frame_rate).2)
        (av_q2d call.stream.r_frame_rate).1).1 hb2
    exact lt_of_lt_of_eq this (Nat.mul_comm _ _)
  · exact_mod_cast n1
  · exact_mod_cast n2
  · omega

theorem C16_frame_interval_witness :
    (0 < ieeeEnv.MAX_PES_PACKET_SIZE) ∧ (0 ≤ (demoCallRate 24000 1001).fd) ∧
      (initialState.initialHeader ≠ 0) ∧
      ((demoCallRate 24000 1001).packet.size.toNat ≤ 5) ∧
      (ieeeEnv.crazyFramerate (demoCallRate 24000 1001).stream.r_frame_rate.num
          (demoCallRate 24000 1001).stream.r_frame_rate.den =
        crazyFramerate (demoCallRate 24000 1001).stream.r_frame_rate) ∧
      (0 < (demoCallRate 24000 1001).stream.r_frame_rate.num) ∧
      (0 < (demoCallRate 24000 1001).stream.r_frame_rate.den) ∧
      (10000000 * (demoCallRate 24000 1001).stream.r_frame_rate.den /
          (demoCallRate 24000 1001).stream.r_frame_rate.num < 4294967295) ∧
      ∃ r w rest, writeData ieeeEnv fullSink 5 initialState () (demoCallRate 24000 1001)
          = some r ∧ r.writes = w :: rest ∧
        w.site = WriteSite.metadata ∧
        w.iov1.drop 36 = le32 (crazyFramerate (demoCallRate 24000 1001).stream.r_frame_rate) ∧
        (crazyFramerate (demoCallRate 24000 1001).stream.r_frame_rate *
            (doubleDiv (10000000 * (av_q2d (demoCallRate 24000 1001).stream.r_frame_rate).2)
              (av_q2d (demoCallRate 24000 1001).stream.r_frame_rate).1).2 ≤
          (doubleDiv (10000000 * (av_q2d (demoCallRate 24000 1001).stream.r_frame_rate).2)
            (av_q2d (demoCallRate 24000 1001).stream.r_frame_rate).1).1) ∧
        ((doubleDiv (10000000 * (av_q2d (demoCallRate 24000 1001).stream.r_frame_rate).2)
            (av_q2d (demoCallRate 24000 1001).stream.r_frame_rate).1).1 <
          (crazyFramerate (demoCallRate 24000 1001).stream.r_frame_rate + 1) *
            (doubleDiv (10000000 * (av_q2d (demoCallRate 24000 1001).stream.r_frame_rate).2)
              (av_q2d (demoCallRate 24000 1001).stream.r_frame_rate).1).2) ∧
        ((crazyFramerate (demoCallRate 24000 1001).stream.r_frame_rate : Int) ≤
          10000000 * (demoCallRate 24000 1001).stream.r_frame_rate.den /
            (demoCallRate 24000 1001).stream.r_frame_rate.num + 1) ∧
        (10000000 * (demoCallRate 24000 1001).stream.r_frame_rate.den /
            (demoCallRate 24000 1001).stream.r_frame_rate.num ≤
          (crazyFramerate (demoCallRate 24000 1001).stream.r_frame_rate : Int) + 1) ∧
        crazyFramerate (demoCallRate 24000 1001).stream.r_frame_rate < 4294967296 ∧
        crazyFramerate { num := 24000, den := 1001 } = 417083 ∧
        crazyFramerate { num := 24, den := 1 } = 416666 ∧
        crazyFramerate { num := 25, den := 17 } = 6799999 :=
  have h1 : 0 < ieeeEnv.MAX_PES_PACKET_SIZE := by decide
  have h2 : 0 ≤ (demoCallRate 24000 1001).fd := by decide
  have h3 : initialState.initialHeader ≠ 0 := by decide
  have h4 : (demoCallRate 24000 1001).packet.size.toNat ≤ 5 := by decide
  have h5 : ieeeEnv.crazyFramerate (demoCallRate 24000 1001).stream.r_frame_rate.num
      (demoCallRate 24000 1001).stream.r_frame_rate.den =
      crazyFramerate (demoCallRate 24000 1001).stream.r_frame_rate := ieeeEnv_crazyFramerate _
  have h6 : 0 < (demoCallRate 24000 1001).stream.r_frame_rate.num := by decide
  have h7 : 0 < (demoCallRate 24000 1001).stream.r_frame_rate.den := by decide
  have h8 : 10000000 * (demoCallRate 24000 1001).stream.r_frame_rate.den /
      (demoCallRate 24000 1001).stream.r_frame_rate.num < 4294967295 := by
    show (10000000 * 1001 / 24000 : Int) < 4294967295
    norm_num
  ⟨h1, h2, h3, h4, h5, h6, h7, h8,
    C16_frame_interval ieeeEnv fullSink 5 initialState () _ h1 h2 h3 h4 h5 h6 h7 h8⟩

/-- C16 fails as stated: for the frame rate 25/17 the quotient
`10^7 * 17 / 25` is exactly 6800000, and line 150 in double arithmetic gives
6799999: the double nearest to 25/17 lies above 25/17, and the double nearest
to `10000000` over it lies below 6800000. The metadata of the first call
carries the bytes of 6799999, not those of 6800000. -/
theorem C16_counterexample :
    (10000000 * 17 / 25 : Int) = 6800000 ∧ (10000000 * 17 % 25 : Int) = 0 ∧
      crazyFramerate (demoCallRate 25 17).stream.r_frame_rate = 6799999 ∧
      25 * (av_q2d { num := 25, den := 17 }).2 < 17 * (av_q2d { num := 25, den := 17 }).1 ∧
      (doubleDiv (10000000 * (av_q2d { num := 25, den := 17 }).2)
          (av_q2d { num := 25, den := 17 }).1).1 <
        6800000 * (doubleDiv (10000000 * (av_q2d { num := 25, den := 17 }).2)
          (av_q2d { num := 25, den := 17 }).1).2 ∧
      le32 6799999 = [0x7f, 0xc2, 0x67, 0x00] ∧ le32 6800000 = [0x80, 0xc2, 0x67, 0x00] ∧
      ∃ r w rest, writeData ieeeEnv fullSink 5 initialState () (demoCallRate 25 17) = some r ∧
        r.writes = w :: rest ∧ w.site = WriteSite.metadata ∧
        w.iov1.drop 36 = le32 6799999 :=
  ⟨by norm_num, by norm_num, crazyFramerate_25_17, by decide, by decide, by rfl, by rfl,
    writeData_interval ieeeEnv fullSink 5 initialState () (demoCallRate 25 17)
      (by decide) (by decide) (by decide) (by decide)⟩

end FrameInterval

end Vc1
